import Mathlib

/-!
# RC car controller (`Arduino/src/main.cpp`): control cycle, deviation buckets, indicators

A shallow embedding of the sketch's `loop()`, its five pin-change handlers and
`serialEvent()`.

Target and integer model.  The sketch is built on the `PinChangeInterrupt` and `Servo`
libraries for an AVR board, where `int` is 16 bits wide, `long`/`unsigned long` are 32 bits
wide and `uint16_t` is `unsigned int`.  Machine integers are embedded as `Nat`/`Int` with the
reduction written out where it can matter (`toInt16`, `toInt32`, `subU32`).

Locals of `loop()`.  `int speed; int angle;` (lines 141-142) are automatic variables without
an initialiser: what they hold when `loop()` is entered is indeterminate.  The embedding takes
their entry contents as the two arguments `speed0 angle0` of `loop`; a statement about every
cycle quantifies over them.

Interrupts.  The pin-change handlers run as interrupts, between passes of `loop()` (a
`Step.edge`) and inside a pass.  Inside a pass they matter where a volatile channel variable
is loaded more than once: each of the two `constrain` macro calls of the manual branch loads
its channel variable once per evaluated occurrence of the macro argument.  A `Preempt` lists
the interrupts served just before each of these loads; interrupts served elsewhere in a pass
act like interrupts before or after it.  A load returns a whole 16-bit value.
`serialEvent()` is called between passes.

Actuators.  Each `esc.writeMicroseconds(v)` / `steer.writeMicroseconds(v)` call is recorded, in
program order, as a `Write` in the list returned by the cycle.

Executions.  A `Step` is one handler run, one `serialEvent()` run or one pass of `loop()`;
`exec` and `passRecords` run a list of steps in order, which is how statements about several
cycles are phrased.

Not embedded: the RGB and siren blocks of `loop()` (lines 282-332).  They read `ch8_value`,
`ch6_value`, `now` and write only their own statics, the RGB pins and the speaker pin.
-/

namespace RCCar

/-! ## Machine integers -/

/-- Value of a 16-bit two's-complement `int` holding `x` (conversion to `int` on AVR). -/
def toInt16 (x : Int) : Int := (x + 32768) % 65536 - 32768

/-- Value of a 32-bit two's-complement `long` holding `x`. -/
def toInt32 (x : Int) : Int := (x + 2147483648) % 4294967296 - 2147483648

/-- Conversion to `uint16_t`. -/
def toU16 (x : Nat) : Nat := x % 65536

/-- Difference `a - b` of two `unsigned long` values (arithmetic modulo 2^32). -/
def subU32 (a b : Nat) : Nat := (a % 4294967296 + (4294967296 - b % 4294967296)) % 4294967296

/-- Arduino.h, `#define constrain(amt,low,high)
((amt)<(low)?(low):((amt)>(high)?(high):(amt)))`. -/
def constrain (amt low high : Int) : Int :=
  if amt < low then low else if amt > high then high else amt

/-! ## Arduino `String` operations used by `loop()`

A `String` is embedded as the list of its characters (`len` characters of `buffer`).
The C-string routines the class delegates to stop at a NUL character. -/

/-- The `isspace` of the C library: space, `\t`, `\n`, `\v`, `\f`, `\r`. -/
def isSpace (c : Char) : Bool :=
  c == ' ' || c == '\t' || c == '\n' || c == '\x0b' || c == '\x0c' || c == '\r'

/-- The `isdigit` of the C library. -/
def isDigit (c : Char) : Bool := decide ('0' ≤ c) && decide (c ≤ '9')

/-- Arduino `String::trim()`: drops leading and trailing `isspace` characters. -/
def trim (s : List Char) : List Char :=
  ((s.dropWhile isSpace).reverse.dropWhile isSpace).reverse

/-- Arduino `String::startsWith(const String &)`: the argument is not longer than the string and
its characters equal the first characters of the string. -/
def startsWith (s pre : List Char) : Bool :=
  decide (pre.length ≤ s.length) && (s.take pre.length == pre)

/-- The C string a `String` buffer is read as: the characters before the first NUL. -/
def cstr (s : List Char) : List Char := s.takeWhile (fun c => c != '\x00')

/-- Arduino `String::substring(left)`: a new `String` assigned from the C string `buffer + left`. -/
def substring (s : List Char) (left : Nat) : List Char := cstr (s.drop left)

/-- Arduino `String::operator==(const char *)`, which is `strcmp(buffer, lit) == 0`. -/
def equals (s lit : List Char) : Bool := cstr s == lit

/-- Digit loop of `atol`: `acc = acc * 10 + (c - '0')` while `c` is a digit. -/
def atolDigits : Int → List Char → Int
  | acc, [] => acc
  | acc, c :: cs => if isDigit c then atolDigits (acc * 10 + ((c.toNat : Int) - 48)) cs else acc

/-- The `atol` of the C library (avr-libc): skip white space, read an optional sign, then
accumulate decimal digits in a `long` up to the first non-digit. -/
def atol (s : List Char) : Int :=
  match s.dropWhile isSpace with
  | [] => 0
  | c :: cs =>
    if c = '-' then toInt32 (-(atolDigits 0 cs))
    else if c = '+' then toInt32 (atolDigits 0 cs)
    else toInt32 (atolDigits 0 (c :: cs))

/-- Arduino `String::toInt()`, which is `atol(buffer)` (0 for an empty string). -/
def toInt (s : List Char) : Int := atol s

/-! ## Program state -/

/-- The globals of the sketch that the control cycle, the handlers and `serialEvent` use,
together with the output level of the two indicator pins. -/
structure State where
  ch1_start : Nat
  ch2_start : Nat
  ch5_start : Nat
  ch8_start : Nat
  ch6_start : Nat
  ch1_value : Nat
  ch2_value : Nat
  ch5_value : Nat
  ch8_value : Nat
  ch6_value : Nat
  inputString : List Char
  stringComplete : Bool
  leftLastBlinkTime : Nat
  rightLastBlinkTime : Nat
  leftLedState : Bool
  rightLedState : Bool
  leftPin : Bool
  rightPin : Bool
  deriving DecidableEq, Repr

/-- The globals as their initialisers and `setup()` leave them. -/
def State.init : State :=
  { ch1_start := 0, ch2_start := 0, ch5_start := 0, ch8_start := 0, ch6_start := 0,
    ch1_value := 1500, ch2_value := 1500, ch5_value := 1500, ch8_value := 1500,
    ch6_value := 1500,
    inputString := [], stringComplete := false,
    leftLastBlinkTime := 0, rightLastBlinkTime := 0,
    leftLedState := false, rightLedState := false,
    leftPin := false, rightPin := false }

/-- One call on an actuator: `esc.writeMicroseconds(us)` or `steer.writeMicroseconds(us)`. -/
inductive Write where
  | esc (us : Int)
  | steer (us : Int)
  deriving DecidableEq, Repr

/-- The locals `speed` and `angle` of `loop()`. -/
structure Locals where
  speed : Int
  angle : Int
  deriving DecidableEq, Repr

/-! ## Pin-change handlers -/

/-- The five monitored receiver channels. -/
inductive Channel where
  | ch1 | ch2 | ch5 | ch8 | ch6
  deriving DecidableEq, Repr

/-- Lines 335-360, `chN_interrupt()` run with pin level `level` at `micros() = t`. -/
def interrupt (c : Channel) (level : Bool) (t : Nat) (st : State) : State :=
  match c with
  | .ch1 => if level then { st with ch1_start := t % 4294967296 }
            else { st with ch1_value := toU16 (subU32 t st.ch1_start) }
  | .ch2 => if level then { st with ch2_start := t % 4294967296 }
            else { st with ch2_value := toU16 (subU32 t st.ch2_start) }
  | .ch5 => if level then { st with ch5_start := t % 4294967296 }
            else { st with ch5_value := toU16 (subU32 t st.ch5_start) }
  | .ch8 => if level then { st with ch8_start := t % 4294967296 }
            else { st with ch8_value := toU16 (subU32 t st.ch8_start) }
  | .ch6 => if level then { st with ch6_start := t % 4294967296 }
            else { st with ch6_value := toU16 (subU32 t st.ch6_start) }

/-- Start timestamp `chN_start` of a channel. -/
def State.start (st : State) : Channel → Nat
  | .ch1 => st.ch1_start
  | .ch2 => st.ch2_start
  | .ch5 => st.ch5_start
  | .ch8 => st.ch8_start
  | .ch6 => st.ch6_start

/-- Published value `chN_value` of a channel. -/
def State.value (st : State) : Channel → Nat
  | .ch1 => st.ch1_value
  | .ch2 => st.ch2_value
  | .ch5 => st.ch5_value
  | .ch8 => st.ch8_value
  | .ch6 => st.ch6_value

/-- One pin-change interrupt served while `loop()` runs: the channel, the pin level its
handler reads and the `micros()` reading. -/
structure Edge where
  c : Channel
  level : Bool
  t : Nat
  deriving DecidableEq, Repr

/-- The handlers of a list of interrupts, run in order. -/
def runEdges : State → List Edge → State
  | st, [] => st
  | st, e :: es => runEdges (interrupt e.c e.level e.t st) es

/-- Interrupts served while the manual branch of `loop()` runs, by the place they preempt it:
just before the load of `ch2_value` in the test `(amt)<(low)` of the first `constrain`, before
the load in its test `(amt)>(high)`, before the load of its result `(amt)`, and the same three
places for `ch1_value` in the second `constrain`.  A list counts only when its load is
reached. -/
structure Preempt where
  speedLow : List Edge
  speedHigh : List Edge
  speedAmt : List Edge
  angleLow : List Edge
  angleHigh : List Edge
  angleAmt : List Edge
  deriving DecidableEq, Repr

/-- No interrupt is served during the manual branch. -/
def Preempt.none : Preempt := ⟨[], [], [], [], [], []⟩

/-- All interrupts of a `Preempt`. -/
def Preempt.edges (p : Preempt) : List Edge :=
  p.speedLow ++ p.speedHigh ++ p.speedAmt ++ p.angleLow ++ p.angleHigh ++ p.angleAmt

/-! ## `loop()` -/

/-- Line 138, `bool autoMode = (ch5_value > 1500);`. -/
def autoMode (st : State) : Bool := decide (st.ch5_value > 1500)

/-- The macro call `constrain(chN_value, low, high)` on the volatile `chN_value` of channel `c`,
expanded as in Arduino.h to `((amt)<(low)?(low):((amt)>(high)?(high):(amt)))`: every
evaluated occurrence of `amt` is a load of the volatile, the interrupts of `e1`, `e2`, `e3`
being served before the first, second and third load.  The comparisons are unsigned.  Result:
the state after the interrupts served, the unsigned value of the expression, and the values
loaded, in order. -/
def constrainVolatile (st : State) (c : Channel) (low high : Nat) (e1 e2 e3 : List Edge) :
    State × Nat × List Nat :=
  let st1 := runEdges st e1
  if st1.value c < low then (st1, low, [st1.value c])
  else
    let st2 := runEdges st1 e2
    if st2.value c > high then (st2, high, [st1.value c, st2.value c])
    else
      let st3 := runEdges st2 e3
      (st3, st3.value c, [st1.value c, st2.value c, st3.value c])

/-- Lines 146-150, the manual branch: `speed` and `angle` receive the unsigned results of the
two `constrain` expansions converted to `int`. -/
def manualBranch (st : State) (p : Preempt) : State × Locals × List Write :=
  let r1 := constrainVolatile st Channel.ch2 1440 1560 p.speedLow p.speedHigh p.speedAmt
  let speed := toInt16 (r1.2.1 : Int)
  let r2 := constrainVolatile r1.1 Channel.ch1 1000 2000 p.angleLow p.angleHigh p.angleAmt
  let angle := toInt16 (r2.2.1 : Int)
  (r2.1, ⟨speed, angle⟩, [Write.esc speed, Write.steer angle])

/-- The values the manual branch loads from `ch2_value` (first list) and from `ch1_value`
(second list), in order. -/
def manualLoads (st : State) (p : Preempt) : List Nat × List Nat :=
  let r1 := constrainVolatile st Channel.ch2 1440 1560 p.speedLow p.speedHigh p.speedAmt
  let r2 := constrainVolatile r1.1 Channel.ch1 1000 2000 p.angleLow p.angleHigh p.angleAmt
  (r1.2.2, r2.2.2)

/-- Every load of the steering channel in the manual branch returns `s` and every load of the
throttle channel returns `t`. -/
def seesValues (st : State) (p : Preempt) (s t : Nat) : Prop :=
  (∀ v ∈ (manualLoads st p).1, v = t) ∧ (∀ v ∈ (manualLoads st p).2, v = s)

instance (st : State) (p : Preempt) (s t : Nat) : Decidable (seesValues st p s t) := by
  unfold seesValues; infer_instance

/-- Lines 160-209, the bucket chain on `deviation`; `l` holds the locals on entry. -/
def deviationBranch (deviation : Int) (l : Locals) : Locals × List Write :=
  if deviation > 0 ∧ deviation < 40 then
    let angle := constrain (toInt16 (1500 - toInt16 (deviation * 40))) 1400 1600
    let speed := 1560
    (⟨speed, angle⟩, [Write.esc speed, Write.steer angle])
  else if deviation < 0 ∧ deviation > -40 then
    let angle := constrain (toInt16 (1500 - toInt16 (deviation * 40))) 1400 1600
    let speed := 1560
    (⟨speed, angle⟩, [Write.esc speed, Write.steer angle])
  else if deviation ≥ 40 ∧ deviation < 80 then
    (⟨1550, 1000⟩, [Write.esc 1550, Write.steer 1000])
  else if deviation ≤ -40 ∧ deviation > -80 then
    (⟨1550, 2000⟩, [Write.esc 1550, Write.steer 2000])
  else if deviation ≥ 80 ∧ deviation < 100 then
    (⟨1440, 1800⟩, [Write.esc 1440, Write.steer 1800])
  else if deviation ≤ -80 ∧ deviation > -100 then
    (⟨1440, 1200⟩, [Write.esc 1440, Write.steer 1200])
  else if deviation ≥ 100 then
    (⟨1430, 1800⟩, [Write.esc 1430, Write.steer 1800])
  else if deviation ≤ -100 then
    (⟨1430, 1200⟩, [Write.esc 1430, Write.steer 1200])
  else
    (l, [])

/-- Lines 157-216, evaluation of the trimmed message `msg`. -/
def messageBranch (msg : List Char) (l : Locals) : Locals × List Write :=
  if startsWith msg ['D', ':'] then
    let deviation := toInt16 (toInt (substring msg 2))
    deviationBranch deviation l
  else if equals msg ['S'] || equals msg ['N'] then
    (⟨1435, 1500⟩, [Write.esc 1435, Write.steer 1500])
  else
    (l, [])

/-- Lines 154-222, the autonomous branch. -/
def autoBranch (st : State) (l : Locals) : State × Locals × List Write :=
  if st.stringComplete then
    let msg := trim st.inputString
    let r := messageBranch msg l
    ({ st with inputString := [], stringComplete := false }, r.1, r.2)
  else
    (st, l, [])

/-- Lines 138-224: mode selection and command computation. -/
def control (st : State) (p : Preempt) (l : Locals) : State × Locals × List Write :=
  if !autoMode st then
    manualBranch st p
  else
    autoBranch st l

/-- Lines 234-241, reversing: both indicators on. -/
def ledsReversing (st : State) : State :=
  let st1 := if !st.leftLedState then { st with leftLedState := true, leftPin := true } else st
  if !st1.rightLedState then { st1 with rightLedState := true, rightPin := true } else st1

/-- Lines 247-255, turning left: right indicator off, left indicator blinking. -/
def ledsLeft (st : State) (now : Nat) : State :=
  let st1 := if st.rightLedState then { st with rightLedState := false, rightPin := false } else st
  if subU32 now st1.leftLastBlinkTime ≥ 200 then
    { st1 with leftLedState := !st1.leftLedState, leftPin := !st1.leftLedState,
               leftLastBlinkTime := now }
  else st1

/-- Lines 259-267, turning right: left indicator off, right indicator blinking. -/
def ledsRight (st : State) (now : Nat) : State :=
  let st1 := if st.leftLedState then { st with leftLedState := false, leftPin := false } else st
  if subU32 now st1.rightLastBlinkTime ≥ 200 then
    { st1 with rightLedState := !st1.rightLedState, rightPin := !st1.rightLedState,
               rightLastBlinkTime := now }
  else st1

/-- Lines 271-278, straight or stopped: both indicators off. -/
def ledsNeutral (st : State) : State :=
  let st1 := if st.leftLedState then { st with leftLedState := false, leftPin := false } else st
  if st1.rightLedState then { st1 with rightLedState := false, rightPin := false } else st1

/-- Lines 228-280, the indicator block, run on the locals `speed` and `angle`. -/
def indicators (st : State) (now : Nat) (l : Locals) : State :=
  let isReversing := decide (l.speed < 1500)
  let isTurningLeft := !isReversing && decide (l.angle < 1450)
  let isTurningRight := !isReversing && decide (l.angle > 1550)
  if isReversing then ledsReversing st
  else if isTurningLeft then ledsLeft st now
  else if isTurningRight then ledsRight st now
  else ledsNeutral st

/-- One pass of `loop()` at clock reading `now = millis()`, preempted by the interrupts `p`
and entered with the locals holding `speed0` and `angle0`: the state after the pass and the
actuator calls made. -/
def loop (st : State) (p : Preempt) (now : Nat) (speed0 angle0 : Int) : State × List Write :=
  let r := control st p ⟨speed0, angle0⟩
  (indicators r.1 now r.2.1, r.2.2)

/-! ## The function `serialEvent()` -/

/-- Lines 362-371, `serialEvent()` draining the received characters `rx`. -/
def serialEvent (rx : List Char) (st : State) : State :=
  match rx with
  | [] => st
  | c :: cs =>
    if c = '\n' then serialEvent cs { st with stringComplete := true }
    else serialEvent cs { st with inputString := st.inputString ++ [c] }

/-! ## Message texts -/

/-- Decimal digits of `n`, most significant first; `fuel` bounds the number of digits. -/
def natDigitsAux : Nat → Nat → List Char
  | 0, _ => []
  | fuel + 1, n =>
    if n < 10 then [Char.ofNat (48 + n)]
    else natDigitsAux fuel (n / 10) ++ [Char.ofNat (48 + n % 10)]

/-- Decimal numeral of a natural number. -/
def natDigits (n : Nat) : List Char := natDigitsAux (n + 1) n

/-- Decimal numeral of an integer, with a leading `-` when negative. -/
def intText (d : Int) : List Char :=
  if d < 0 then '-' :: natDigits d.natAbs else natDigits d.natAbs

/-- The message text `D:<d>`. -/
def devMsg (d : Int) : List Char := 'D' :: ':' :: intText d

/-- A state in autonomous mode (MODE channel at 1800) with the complete line `msg` pending;
everything else as after `setup()`. -/
def autoPending (msg : List Char) : State :=
  { State.init with ch5_value := 1800, inputString := msg, stringComplete := true }

/-- A state in manual mode (MODE channel at `mode`) with steering channel `s` and throttle
channel `t`; everything else as after `setup()`. -/
def manualAt (mode s t : Nat) : State :=
  { State.init with ch5_value := mode, ch1_value := s, ch2_value := t }

/-- The documented actuator ranges: speed within `[1430, 1560]`, steering within
`[1000, 2000]`. -/
def Write.inBounds : Write → Prop
  | .esc v => 1430 ≤ v ∧ v ≤ 1560
  | .steer v => 1000 ≤ v ∧ v ≤ 2000

instance : DecidablePred Write.inBounds := fun w => by
  cases w <;> (unfold Write.inBounds; infer_instance)

/-- Autonomous mode with the malformed line `X:abc` pending while the left indicator is lit
(flag and pin high, last toggle at clock reading 0). -/
def malformedPending : State :=
  { autoPending ['X', ':', 'a', 'b', 'c'] with leftLedState := true, leftPin := true }

/-- The state an autonomous-mode cycle at clock reading 0 leaves after evaluating the line
`S`, starting from `autoPending`. -/
def afterStop : State := (loop (autoPending ['S']) Preempt.none 0 0 0).1

/-! ## Executions -/

/-- One thing that runs: a pin-change handler (channel, pin level, `micros()` reading),
`serialEvent()` on the received characters, or one pass of `loop()` (the interrupts that
preempt it, `millis()` reading and entry contents of the locals). -/
inductive Step where
  | edge (c : Channel) (level : Bool) (t : Nat)
  | serial (rx : List Char)
  | pass (p : Preempt) (now : Nat) (speed0 angle0 : Int)
  deriving DecidableEq, Repr

/-- Whether a step runs the handler of channel `c`, on its own or as an interrupt that
preempts a pass. -/
def Step.isEdgeOn (c : Channel) : Step → Bool
  | .edge c2 _ _ => c2 == c
  | .serial _ => false
  | .pass p _ _ _ => p.edges.any (fun e => e.c == c)

/-- State after a step and the actuator calls it makes. -/
def Step.run (s : Step) (st : State) : State × List Write :=
  match s with
  | .edge c level t => (interrupt c level t st, [])
  | .serial rx => (serialEvent rx st, [])
  | .pass p now speed0 angle0 => loop st p now speed0 angle0

/-- State after a sequence of steps. -/
def exec : State → List Step → State
  | st, [] => st
  | st, s :: ss => exec (s.run st).1 ss

/-- Record of one pass of `loop()` inside an execution: its clock reading, the state it
found, the state it left and the actuator calls it made. -/
structure PassRecord where
  now : Nat
  pre : State
  post : State
  writes : List Write
  deriving DecidableEq, Repr

/-- The passes of `loop()` in an execution from `st`, in order. -/
def passRecords : State → List Step → List PassRecord
  | _, [] => []
  | st, s :: ss =>
    match s with
    | .pass p now speed0 angle0 =>
      ⟨now, st, (loop st p now speed0 angle0).1, (loop st p now speed0 angle0).2⟩
        :: passRecords (loop st p now speed0 angle0).1 ss
    | .edge c level t => passRecords (interrupt c level t st) ss
    | .serial rx => passRecords (serialEvent rx st) ss

/-- Clock readings of the passes in which the left indicator flag changed. -/
def leftToggleTimes (rs : List PassRecord) : List Nat :=
  (rs.filter (fun r => r.post.leftLedState != r.pre.leftLedState)).map (fun r => r.now)

/-- Two states agree on the serial buffer, the complete-flag and the indicator flags, pins and
timestamps. -/
def sameSerialLeds (a b : State) : Prop :=
  a.inputString = b.inputString ∧ a.stringComplete = b.stringComplete ∧
  a.leftLedState = b.leftLedState ∧ a.rightLedState = b.rightLedState ∧
  a.leftLastBlinkTime = b.leftLastBlinkTime ∧ a.rightLastBlinkTime = b.rightLastBlinkTime ∧
  a.leftPin = b.leftPin ∧ a.rightPin = b.rightPin

instance (a b : State) : Decidable (sameSerialLeds a b) := by
  unfold sameSerialLeds; infer_instance

/-- Two states agree on everything but the indicator flags, pins and timestamps. -/
def sameInputs (a b : State) : Prop :=
  a.ch1_start = b.ch1_start ∧ a.ch2_start = b.ch2_start ∧ a.ch5_start = b.ch5_start ∧
  a.ch8_start = b.ch8_start ∧ a.ch6_start = b.ch6_start ∧
  a.ch1_value = b.ch1_value ∧ a.ch2_value = b.ch2_value ∧ a.ch5_value = b.ch5_value ∧
  a.ch8_value = b.ch8_value ∧ a.ch6_value = b.ch6_value ∧
  a.inputString = b.inputString ∧ a.stringComplete = b.stringComplete

instance (a b : State) : Decidable (sameInputs a b) := by
  unfold sameInputs; infer_instance

/-- Characters an execution appends to `inputString`: everything received but newlines. -/
def serialText : List Step → List Char
  | [] => []
  | s :: ss =>
    match s with
    | .serial rx => rx.filter (fun c => c != '\n') ++ serialText ss
    | _ => serialText ss

/-- Whether an execution receives a newline. -/
def serialNewline : List Step → Bool
  | [] => false
  | s :: ss =>
    match s with
    | .serial rx => rx.contains '\n' || serialNewline ss
    | _ => serialNewline ss

/-- The four cases of the indicator block. -/
inductive IndicatorClass where
  | reversing | turnLeft | turnRight | neutral
  deriving DecidableEq, Repr

/-- Lines 228-230 and the `if` chain of lines 232, 245, 257, 269: the case the indicator
block takes for the locals `speed` and `angle`. -/
def classify (l : Locals) : IndicatorClass :=
  let isReversing := decide (l.speed < 1500)
  let isTurningLeft := !isReversing && decide (l.angle < 1450)
  let isTurningRight := !isReversing && decide (l.angle > 1550)
  if isReversing then .reversing
  else if isTurningLeft then .turnLeft
  else if isTurningRight then .turnRight
  else .neutral

/-- An execution in autonomous mode that keeps a left turn sustained: `D:3`, `D:7`, `D:9`
arrive one after the other (each issues steering 1400, speed 1560), with passes of `loop()`
at clock readings 1000, 1100 and 1200 and a handler running in between. -/
def leftTurnSteps : List Step :=
  [Step.pass Preempt.none 1000 0 0,
   Step.serial ['D', ':', '7', '\n'],
   Step.pass Preempt.none 1100 0 0,
   Step.edge Channel.ch1 true 5,
   Step.serial ['D', ':', '9', '\r', '\n'],
   Step.pass Preempt.none 1200 0 0]

/-- What runs between the two edges of the pulse of the C13 witness: a rising edge on another
channel and a pass of `loop()`. -/
def pulseMid : List Step :=
  [Step.edge Channel.ch1 true 4294966900, Step.pass Preempt.none 7 0 0]

/-- An execution that starts in manual mode: the line `D:45` completes, a pass runs, `D:-4`
arrives, another pass runs, `5` and a newline arrive, and a pulse of 1800 microseconds on the
MODE channel switches to autonomous mode. -/
def manualThenAutoSteps : List Step :=
  [Step.serial ['D', ':', '4', '5', '\n'],
   Step.pass Preempt.none 0 0 0,
   Step.serial ['D', ':', '-', '4'],
   Step.pass Preempt.none 10 0 0,
   Step.serial ['5', '\n'],
   Step.edge Channel.ch5 true 100,
   Step.edge Channel.ch5 false 1900]

/-- Manual mode with steering and throttle published at 1500, while a throttle pulse is in
progress: its rising edge was handled at `micros() = 100000`. -/
def throttlePulseStarted : State :=
  interrupt Channel.ch2 true 100000 (manualAt 1500 1500 1500)

/-- Interrupts of a manual pass during which the throttle stick moves up: the falling edge of
the pulse, 1700 microseconds after its rising edge, is served between the second and the
third load of `ch2_value`. -/
def throttleUp : Preempt :=
  { Preempt.none with speedAmt := [⟨Channel.ch2, false, 101700⟩] }

/-- Interrupts of a manual pass during which the throttle stick moves down: the falling edge
of the pulse, 1000 microseconds after its rising edge, is served between the second and the
third load of `ch2_value`. -/
def throttleDown : Preempt :=
  { Preempt.none with speedAmt := [⟨Channel.ch2, false, 101000⟩] }

/-! ## Reading back a decimal numeral -/

theorem digitChar_spec (k : Nat) (h : k < 10) :
    isDigit (Char.ofNat (48 + k)) = true ∧ isSpace (Char.ofNat (48 + k)) = false ∧
    Char.ofNat (48 + k) ≠ '-' ∧ Char.ofNat (48 + k) ≠ '+' ∧
    ((Char.ofNat (48 + k)).toNat : Int) - 48 = (k : Int) ∧
    (Char.ofNat (48 + k) != '\x00') = true := by
  interval_cases k <;> decide

theorem atolDigits_append (xs ys : List Char) (h : ∀ c ∈ xs, isDigit c = true) (acc : Int) :
    atolDigits acc (xs ++ ys) = atolDigits (atolDigits acc xs) ys := by
  induction xs generalizing acc with
  | nil => rfl
  | cons x xs ih =>
    have hx : isDigit x = true := h x (List.mem_cons_self _ _)
    have hxs : ∀ c ∈ xs, isDigit c = true := fun c hc => h c (List.mem_cons_of_mem _ hc)
    simp [atolDigits, hx, ih hxs]

theorem natDigitsAux_mem (fuel n : Nat) :
    ∀ c ∈ natDigitsAux fuel n, ∃ k, k < 10 ∧ c = Char.ofNat (48 + k) := by
  induction fuel generalizing n with
  | zero => intro c hc; simp [natDigitsAux] at hc
  | succ fuel ih =>
    intro c hc
    unfold natDigitsAux at hc
    split at hc
    · rename_i h10
      simp only [List.mem_singleton] at hc
      exact ⟨n, h10, hc⟩
    · simp only [List.mem_append, List.mem_singleton] at hc
      rcases hc with hc | hc
      · exact ih _ c hc
      · exact ⟨n % 10, Nat.mod_lt _ (by decide), hc⟩

theorem natDigitsAux_isDigit (fuel n : Nat) : ∀ c ∈ natDigitsAux fuel n, isDigit c = true := by
  intro c hc
  obtain ⟨k, hk, rfl⟩ := natDigitsAux_mem fuel n c hc
  exact (digitChar_spec k hk).1

theorem atolDigits_natDigitsAux (fuel n : Nat) (h : n < fuel) :
    atolDigits 0 (natDigitsAux fuel n) = (n : Int) := by
  induction fuel generalizing n with
  | zero => omega
  | succ fuel ih =>
    unfold natDigitsAux
    split
    · rename_i h10
      have hd := digitChar_spec n h10
      simp [atolDigits, hd.1, hd.2.2.2.2.1]
    · rename_i h10
      have hlt : n / 10 < fuel := by omega
      have hd := digitChar_spec (n % 10) (Nat.mod_lt _ (by decide))
      rw [atolDigits_append _ _ (natDigitsAux_isDigit fuel (n / 10)), ih _ hlt]
      simp only [atolDigits, hd.1, if_true, hd.2.2.2.2.1]
      omega

theorem natDigits_ne_nil (n : Nat) : natDigits n ≠ [] := by
  unfold natDigits natDigitsAux
  split <;> simp

theorem cstr_natDigits (n : Nat) : cstr (natDigits n) = natDigits n := by
  unfold cstr
  rw [List.takeWhile_eq_self_iff]
  intro c hc
  obtain ⟨k, hk, rfl⟩ := natDigitsAux_mem _ _ c hc
  exact (digitChar_spec k hk).2.2.2.2.2

theorem atol_natDigits (n : Nat) : atol (natDigits n) = toInt32 (n : Int) := by
  have hne := natDigits_ne_nil n
  have hval : atolDigits 0 (natDigits n) = (n : Int) :=
    atolDigits_natDigitsAux (n + 1) n (Nat.lt_succ_self n)
  have hmem := natDigitsAux_mem (n + 1) n
  change ∀ c ∈ natDigits n, _ at hmem
  cases hl : natDigits n with
  | nil => exact absurd hl hne
  | cons c cs =>
    rw [hl] at hval hmem
    obtain ⟨k, hk, hc⟩ := hmem c (List.mem_cons_self _ _)
    have hd := digitChar_spec k hk
    rw [← hc] at hd
    simp [atol, List.dropWhile, hd.2.1, hd.2.2.1, hd.2.2.2.1, hval]

theorem toInt_intText (d : Int) : toInt (intText d) = toInt32 d := by
  unfold toInt intText
  split
  · rename_i hneg
    have hval : atolDigits 0 (natDigits d.natAbs) = (d.natAbs : Int) :=
      atolDigits_natDigitsAux _ _ (Nat.lt_succ_self _)
    have hsp : isSpace '-' = false := by decide
    simp only [atol, List.dropWhile, hsp, if_true, hval]
    congr 1
    omega
  · rename_i hneg
    rw [atol_natDigits]
    congr 1
    omega

theorem cstr_intText (d : Int) : cstr (intText d) = intText d := by
  unfold intText
  split
  · have h := cstr_natDigits d.natAbs
    unfold cstr at h ⊢
    have hm : (('-' : Char) != '\x00') = true := by decide
    rw [List.takeWhile_cons, if_pos hm, h]
  · exact cstr_natDigits _

theorem toInt16_toInt32 (x : Int) : toInt16 (toInt32 x) = toInt16 x := by
  unfold toInt16 toInt32
  omega

/-- What `loop()` reads off the text `D:<d>`: the prefix test succeeds and `deviation` is
`d` converted to a 16-bit `int`. -/
theorem devMsg_parse (d : Int) :
    startsWith (devMsg d) ['D', ':'] = true ∧
    toInt16 (toInt (substring (devMsg d) 2)) = toInt16 d := by
  constructor
  · simp [startsWith, devMsg]
  · have h : substring (devMsg d) 2 = intText d := by
      simp [substring, devMsg, cstr_intText]
    rw [h, toInt_intText, toInt16_toInt32]

theorem toInt16_of_range (x : Int) (h1 : -32768 ≤ x) (h2 : x ≤ 32767) : toInt16 x = x := by
  unfold toInt16
  omega

/-! ## Interrupts inside the manual branch -/

/-- A pin-change handler touches neither the serial buffer nor the indicator variables. -/
theorem interrupt_frame (c : Channel) (level : Bool) (t : Nat) (st : State) :
    (interrupt c level t st).inputString = st.inputString ∧
    (interrupt c level t st).stringComplete = st.stringComplete ∧
    (interrupt c level t st).leftLedState = st.leftLedState ∧
    (interrupt c level t st).rightLedState = st.rightLedState ∧
    (interrupt c level t st).leftLastBlinkTime = st.leftLastBlinkTime ∧
    (interrupt c level t st).rightLastBlinkTime = st.rightLastBlinkTime ∧
    (interrupt c level t st).leftPin = st.leftPin ∧
    (interrupt c level t st).rightPin = st.rightPin := by
  cases c <;> cases level <;> simp [interrupt]

/-- A handler writes only its own channel: the start timestamp on a rising edge, the
published value on a falling edge. -/
theorem interrupt_channels (c : Channel) (level : Bool) (t : Nat) (st : State) :
    (∀ c2, c2 ≠ c → (interrupt c level t st).start c2 = st.start c2 ∧
      (interrupt c level t st).value c2 = st.value c2) ∧
    (interrupt c true t st).start c = t % 4294967296 ∧
    (interrupt c true t st).value c = st.value c ∧
    (interrupt c false t st).start c = st.start c ∧
    (interrupt c false t st).value c = toU16 (subU32 t (st.start c)) := by
  refine ⟨?_, ?_, ?_, ?_, ?_⟩
  · intro c2 hne
    cases c <;> cases c2 <;> cases level <;> first | exact absurd rfl hne | exact ⟨rfl, rfl⟩
  all_goals cases c <;> rfl

/-- Interrupts on other channels leave the start timestamp and the published value of
channel `c` as they were. -/
theorem runEdges_channel_frame (c : Channel) (es : List Edge) : ∀ st : State,
    (∀ e ∈ es, e.c ≠ c) →
    (runEdges st es).start c = st.start c ∧ (runEdges st es).value c = st.value c := by
  induction es with
  | nil => intro st _; exact ⟨rfl, rfl⟩
  | cons e es ih =>
    intro st h
    have he : c ≠ e.c := fun hc => h e (List.mem_cons_self _ _) hc.symm
    have h1 := (interrupt_channels e.c e.level e.t st).1 c he
    have h2 := ih (interrupt e.c e.level e.t st) (fun e2 he2 => h e2 (List.mem_cons_of_mem _ he2))
    simp only [runEdges]
    exact ⟨h2.1.trans h1.1, h2.2.trans h1.2⟩

theorem constrainVolatile_channel_frame (st : State) (c c2 : Channel) (low high : Nat)
    (e1 e2 e3 : List Edge)
    (h1 : ∀ e ∈ e1, e.c ≠ c) (h2 : ∀ e ∈ e2, e.c ≠ c) (h3 : ∀ e ∈ e3, e.c ≠ c) :
    (constrainVolatile st c2 low high e1 e2 e3).1.start c = st.start c ∧
    (constrainVolatile st c2 low high e1 e2 e3).1.value c = st.value c := by
  have f1 := runEdges_channel_frame c e1 st h1
  have f2 := runEdges_channel_frame c e2 (runEdges st e1) h2
  have f3 := runEdges_channel_frame c e3 (runEdges (runEdges st e1) e2) h3
  unfold constrainVolatile
  simp only
  split_ifs
  · exact f1
  · exact ⟨f2.1.trans f1.1, f2.2.trans f1.2⟩
  · exact ⟨f3.1.trans (f2.1.trans f1.1), f3.2.trans (f2.2.trans f1.2)⟩

/-- A manual branch preempted by no interrupt on channel `c` leaves that channel as it was. -/
theorem manualBranch_channel_frame (st : State) (p : Preempt) (c : Channel)
    (h : p.edges.any (fun e => e.c == c) = false) :
    (manualBranch st p).1.start c = st.start c ∧ (manualBranch st p).1.value c = st.value c := by
  have hall : ∀ e ∈ p.edges, e.c ≠ c := by
    intro e he hc
    have := List.any_eq_false.1 h e he
    simp [hc] at this
  have g : ∀ es : List Edge, (∀ e ∈ es, e ∈ p.edges) → ∀ e ∈ es, e.c ≠ c :=
    fun es hes e he => hall e (hes e he)
  have m1 : ∀ e ∈ p.speedLow, e ∈ p.edges := fun e he => by simp [Preempt.edges, he]
  have m2 : ∀ e ∈ p.speedHigh, e ∈ p.edges := fun e he => by simp [Preempt.edges, he]
  have m3 : ∀ e ∈ p.speedAmt, e ∈ p.edges := fun e he => by simp [Preempt.edges, he]
  have m4 : ∀ e ∈ p.angleLow, e ∈ p.edges := fun e he => by simp [Preempt.edges, he]
  have m5 : ∀ e ∈ p.angleHigh, e ∈ p.edges := fun e he => by simp [Preempt.edges, he]
  have m6 : ∀ e ∈ p.angleAmt, e ∈ p.edges := fun e he => by simp [Preempt.edges, he]
  have f1 := constrainVolatile_channel_frame st c Channel.ch2 1440 1560 p.speedLow p.speedHigh
    p.speedAmt (g _ m1) (g _ m2) (g _ m3)
  have f2 := constrainVolatile_channel_frame
    (constrainVolatile st Channel.ch2 1440 1560 p.speedLow p.speedHigh p.speedAmt).1 c
    Channel.ch1 1000 2000 p.angleLow p.angleHigh p.angleAmt (g _ m4) (g _ m5) (g _ m6)
  unfold manualBranch
  exact ⟨f2.1.trans f1.1, f2.2.trans f1.2⟩

theorem sameSerialLeds_trans (a b c : State) (h1 : sameSerialLeds a b)
    (h2 : sameSerialLeds b c) : sameSerialLeds a c := by
  obtain ⟨a1, a2, a3, a4, a5, a6, a7, a8⟩ := h1
  obtain ⟨b1, b2, b3, b4, b5, b6, b7, b8⟩ := h2
  exact ⟨a1.trans b1, a2.trans b2, a3.trans b3, a4.trans b4, a5.trans b5, a6.trans b6,
    a7.trans b7, a8.trans b8⟩

theorem runEdges_frame (es : List Edge) : ∀ st : State, sameSerialLeds (runEdges st es) st := by
  induction es with
  | nil => intro st; exact ⟨rfl, rfl, rfl, rfl, rfl, rfl, rfl, rfl⟩
  | cons e es ih =>
    intro st
    exact sameSerialLeds_trans _ _ _ (ih _) (interrupt_frame e.c e.level e.t st)

theorem constrainVolatile_frame (st : State) (c : Channel) (low high : Nat)
    (e1 e2 e3 : List Edge) : sameSerialLeds (constrainVolatile st c low high e1 e2 e3).1 st := by
  have h1 := runEdges_frame e1 st
  have h2 := sameSerialLeds_trans _ _ _ (runEdges_frame e2 (runEdges st e1)) h1
  have h3 := sameSerialLeds_trans _ _ _ (runEdges_frame e3 (runEdges (runEdges st e1) e2)) h2
  unfold constrainVolatile
  simp only
  split_ifs
  · exact h1
  · exact h2
  · exact h3

/-- The manual branch, interrupts included, touches neither the serial buffer nor the
indicator variables. -/
theorem manualBranch_frame (st : State) (p : Preempt) :
    sameSerialLeds (manualBranch st p).1 st := by
  unfold manualBranch
  exact sameSerialLeds_trans _ _ _ (constrainVolatile_frame _ _ _ _ _ _ _)
    (constrainVolatile_frame _ _ _ _ _ _ _)

/-- The manual branch passes to the actuators what it stored in `speed` and `angle`. -/
theorem manualBranch_writes (st : State) (p : Preempt) :
    (manualBranch st p).2.2
      = [Write.esc (manualBranch st p).2.1.speed, Write.steer (manualBranch st p).2.1.angle] :=
  rfl

/-- When every load of the `constrain` expansion returns `v`, the value stored is the clamp
of `v`, and the interrupts served changed no value of that channel that was loaded. -/
theorem constrainVolatile_stable (st : State) (c : Channel) (low high : Nat)
    (e1 e2 e3 : List Edge) (v : Nat) (hle : low ≤ high) (hhi : high ≤ 32767)
    (h : ∀ x ∈ (constrainVolatile st c low high e1 e2 e3).2.2, x = v) :
    toInt16 ((constrainVolatile st c low high e1 e2 e3).2.1 : Int)
      = constrain (v : Int) (low : Int) (high : Int) := by
  unfold constrainVolatile at h ⊢
  simp only at h ⊢
  split_ifs at h ⊢ with c1 c2
  · have e := h _ (List.mem_singleton.2 rfl)
    rw [e] at c1
    simp only [constrain, toInt16]
    split_ifs <;> omega
  · have e := h _ (List.mem_cons_of_mem _ (List.mem_singleton.2 rfl))
    have e0 := h _ (List.mem_cons_self _ _)
    rw [e] at c2
    rw [e0] at c1
    simp only [constrain, toInt16]
    split_ifs <;> omega
  · have e0 := h _ (List.mem_cons_self _ _)
    have e1 := h _ (List.mem_cons_of_mem _ (List.mem_cons_self _ _))
    have e2 := h _ (List.mem_cons_of_mem _ (List.mem_cons_of_mem _ (List.mem_singleton.2 rfl)))
    rw [e0] at c1
    rw [e1] at c2
    rw [e2]
    simp only [constrain, toInt16]
    split_ifs <;> omega

/-- A manual branch all of whose loads return the throttle value `t` and the steering value
`s` issues the clamps of `t` and `s`. -/
theorem manualBranch_stable (st : State) (p : Preempt) (s t : Nat)
    (h : seesValues st p s t) :
    (manualBranch st p).2
      = (⟨constrain (t : Int) 1440 1560, constrain (s : Int) 1000 2000⟩,
          [Write.esc (constrain (t : Int) 1440 1560),
           Write.steer (constrain (s : Int) 1000 2000)]) := by
  have h1 := constrainVolatile_stable st Channel.ch2 1440 1560 p.speedLow p.speedHigh
    p.speedAmt t (by decide) (by decide) h.1
  have h2 := constrainVolatile_stable
    (constrainVolatile st Channel.ch2 1440 1560 p.speedLow p.speedHigh p.speedAmt).1
    Channel.ch1 1000 2000 p.angleLow p.angleHigh p.angleAmt s (by decide) (by decide) h.2
  simp only [Nat.cast_ofNat] at h1 h2
  simp only [manualBranch, h1, h2]

/-- A manual branch that no interrupt preempts loads the values the pass found, and leaves
the state as it found it. -/
theorem manualBranch_none (st : State) :
    seesValues st Preempt.none st.ch1_value st.ch2_value ∧
    (manualBranch st Preempt.none).1 = st := by
  constructor
  · constructor
    · intro v hv
      simp only [manualLoads, constrainVolatile, Preempt.none, runEdges, State.value] at hv
      split_ifs at hv <;> simp at hv <;> omega
    · intro v hv
      simp only [manualLoads, constrainVolatile, Preempt.none, runEdges, State.value] at hv
      split_ifs at hv <;> simp at hv <;> omega
  · simp only [manualBranch, constrainVolatile, Preempt.none, runEdges]
    split_ifs <;> rfl

theorem interrupt_setBuffer (c : Channel) (level : Bool) (t : Nat) (st : State)
    (msg : List Char) (complete : Bool) :
    interrupt c level t { st with inputString := msg, stringComplete := complete }
      = { interrupt c level t st with inputString := msg, stringComplete := complete } := by
  cases c <;> cases level <;> rfl

theorem runEdges_setBuffer (es : List Edge) (msg : List Char) (complete : Bool) :
    ∀ st : State,
      runEdges { st with inputString := msg, stringComplete := complete } es
        = { runEdges st es with inputString := msg, stringComplete := complete } := by
  induction es with
  | nil => intro st; rfl
  | cons e es ih =>
    intro st
    simp only [runEdges]
    rw [interrupt_setBuffer, ih]

theorem value_setBuffer (st : State) (msg : List Char) (complete : Bool) (c : Channel) :
    ({ st with inputString := msg, stringComplete := complete } : State).value c = st.value c := by
  cases c <;> rfl

theorem constrainVolatile_setBuffer (st : State) (c : Channel) (low high : Nat)
    (e1 e2 e3 : List Edge) (msg : List Char) (complete : Bool) :
    constrainVolatile { st with inputString := msg, stringComplete := complete } c low high
        e1 e2 e3
      = ({ (constrainVolatile st c low high e1 e2 e3).1 with
            inputString := msg, stringComplete := complete },
          (constrainVolatile st c low high e1 e2 e3).2) := by
  simp only [constrainVolatile, runEdges_setBuffer, value_setBuffer]
  split_ifs <;> rfl

/-- What the manual branch stores and issues does not depend on the serial buffer. -/
theorem manualBranch_setBuffer (st : State) (p : Preempt) (msg : List Char) (complete : Bool) :
    (manualBranch { st with inputString := msg, stringComplete := complete } p).2
      = (manualBranch st p).2 := by
  simp only [manualBranch, constrainVolatile_setBuffer]

/-! ## The control cycle, branch by branch -/

theorem loop_manual (st : State) (p : Preempt) (now : Nat) (speed0 angle0 : Int)
    (h : st.ch5_value ≤ 1500) :
    loop st p now speed0 angle0
      = (indicators (manualBranch st p).1 now (manualBranch st p).2.1,
          (manualBranch st p).2.2) := by
  have hm : autoMode st = false := by simp [autoMode]; omega
  simp [loop, control, hm]

theorem loop_auto_message (st : State) (p : Preempt) (now : Nat) (speed0 angle0 : Int)
    (hmode : st.ch5_value > 1500) (hcomplete : st.stringComplete = true) :
    loop st p now speed0 angle0 =
      (indicators { st with inputString := [], stringComplete := false } now
          (messageBranch (trim st.inputString) ⟨speed0, angle0⟩).1,
        (messageBranch (trim st.inputString) ⟨speed0, angle0⟩).2) := by
  have hm : autoMode st = true := by simp [autoMode]; omega
  simp [loop, control, autoBranch, hm, hcomplete]

theorem loop_auto_idle (st : State) (p : Preempt) (now : Nat) (speed0 angle0 : Int)
    (hmode : st.ch5_value > 1500) (hcomplete : st.stringComplete = false) :
    loop st p now speed0 angle0 = (indicators st now ⟨speed0, angle0⟩, []) := by
  have hm : autoMode st = true := by simp [autoMode]; omega
  simp [loop, control, autoBranch, hm, hcomplete]

theorem messageBranch_devMsg (d : Int) (l : Locals) :
    messageBranch (devMsg d) l = deviationBranch (toInt16 d) l := by
  have h := devMsg_parse d
  simp [messageBranch, h.1, h.2]

theorem messageBranch_stop (l : Locals) :
    messageBranch ['S'] l = (⟨1435, 1500⟩, [Write.esc 1435, Write.steer 1500]) ∧
    messageBranch ['N'] l = (⟨1435, 1500⟩, [Write.esc 1435, Write.steer 1500]) := by
  constructor <;> rfl

theorem constrain_eq_clamp (x lo hi : Int) (h : lo ≤ hi) :
    constrain x lo hi = max lo (min x hi) := by
  unfold constrain
  split
  · omega
  · split <;> omega

theorem constrain_bounds (x lo hi : Int) (h : lo ≤ hi) :
    lo ≤ constrain x lo hi ∧ constrain x lo hi ≤ hi := by
  rw [constrain_eq_clamp x lo hi h]
  omega

theorem deviationBranch_inBounds (d : Int) (l : Locals) :
    ∀ w ∈ (deviationBranch d l).2, w.inBounds := by
  have hb := constrain_bounds (toInt16 (1500 - toInt16 (d * 40))) 1400 1600 (by decide)
  intro w hw
  unfold deviationBranch at hw
  split_ifs at hw <;> simp at hw <;> rcases hw with rfl | rfl <;>
    simp only [Write.inBounds] <;> omega

theorem messageBranch_inBounds (msg : List Char) (l : Locals) :
    ∀ w ∈ (messageBranch msg l).2, w.inBounds := by
  intro w hw
  unfold messageBranch at hw
  split_ifs at hw
  · exact deviationBranch_inBounds _ _ w hw
  · simp at hw
    rcases hw with rfl | rfl <;> simp only [Write.inBounds] <;> omega
  · simp at hw

/-- A branch that calls the actuators leaves the values it passed in `speed` and `angle`. -/
theorem deviationBranch_writes (d : Int) (l : Locals) :
    (deviationBranch d l).2 = [] ∨
    (deviationBranch d l).2
      = [Write.esc (deviationBranch d l).1.speed, Write.steer (deviationBranch d l).1.angle] := by
  unfold deviationBranch
  split_ifs <;> simp

theorem messageBranch_writes (msg : List Char) (l : Locals) :
    (messageBranch msg l).2 = [] ∨
    (messageBranch msg l).2
      = [Write.esc (messageBranch msg l).1.speed, Write.steer (messageBranch msg l).1.angle] := by
  unfold messageBranch
  split_ifs
  · exact deviationBranch_writes _ _
  · simp
  · simp

theorem control_writes (st : State) (p : Preempt) (l : Locals) :
    (control st p l).2.2 = [] ∨
    (control st p l).2.2
      = [Write.esc (control st p l).2.1.speed, Write.steer (control st p l).2.1.angle] := by
  unfold control autoBranch
  split_ifs
  · right; exact manualBranch_writes st p
  · exact messageBranch_writes _ _
  · left; rfl

/-- The command part of the cycle touches neither the indicator flags, nor the indicator pins,
nor the toggle timestamps. -/
theorem control_indicator_frame (st : State) (p : Preempt) (l : Locals) :
    (control st p l).1.leftLedState = st.leftLedState ∧
    (control st p l).1.rightLedState = st.rightLedState ∧
    (control st p l).1.leftLastBlinkTime = st.leftLastBlinkTime ∧
    (control st p l).1.rightLastBlinkTime = st.rightLastBlinkTime ∧
    (control st p l).1.leftPin = st.leftPin ∧
    (control st p l).1.rightPin = st.rightPin := by
  have hmb := manualBranch_frame st p
  unfold control autoBranch
  split_ifs
  · exact ⟨hmb.2.2.1, hmb.2.2.2.1, hmb.2.2.2.2.1, hmb.2.2.2.2.2.1, hmb.2.2.2.2.2.2.1,
      hmb.2.2.2.2.2.2.2⟩
  · exact ⟨rfl, rfl, rfl, rfl, rfl, rfl⟩
  · exact ⟨rfl, rfl, rfl, rfl, rfl, rfl⟩

theorem ledsReversing_spec (st : State) :
    (ledsReversing st).leftLedState = true ∧ (ledsReversing st).rightLedState = true ∧
    (ledsReversing st).leftLastBlinkTime = st.leftLastBlinkTime ∧
    (ledsReversing st).rightLastBlinkTime = st.rightLastBlinkTime ∧
    (st.leftPin = st.leftLedState → (ledsReversing st).leftPin = true) ∧
    (st.rightPin = st.rightLedState → (ledsReversing st).rightPin = true) := by
  unfold ledsReversing
  cases hl : st.leftLedState <;> cases hr : st.rightLedState <;> simp [hl, hr]

/-- In the state `malformedPending` at clock reading 1000 the indicator block changes a flag
or a timestamp whatever the locals hold: reversing lights the right indicator, a left turn
toggles the left one, a right turn and neutral switch the left one off. -/
theorem malformed_indicators_change (speed0 angle0 : Int) :
    ¬ ((loop malformedPending Preempt.none 1000 speed0 angle0).1.leftLedState = malformedPending.leftLedState ∧
       (loop malformedPending Preempt.none 1000 speed0 angle0).1.rightLedState
         = malformedPending.rightLedState) := by
  have h := loop_auto_message malformedPending Preempt.none 1000 speed0 angle0 (by decide) rfl
  have hmb : messageBranch (trim malformedPending.inputString) ⟨speed0, angle0⟩
      = (⟨speed0, angle0⟩, []) := rfl
  rw [h, hmb]
  simp only [indicators]
  split_ifs <;> decide

/-! ## Claims -/

/-- C1. In an autonomous-mode cycle that evaluates the complete message `D:<d>` with
`0 < d < 40` or `-40 < d < 0`, the actuator calls are exactly speed 1560 followed by
steering `clamp(1500 - 40*d, 1400, 1600)`; the product and the difference computed in 16-bit
`int` arithmetic are the exact integers. -/
theorem C1_proportional_band (st : State) (p : Preempt) (now : Nat) (speed0 angle0 d : Int)
    (hmode : st.ch5_value > 1500) (hcomplete : st.stringComplete = true)
    (hmsg : trim st.inputString = devMsg d)
    (hd : (0 < d ∧ d < 40) ∨ (-40 < d ∧ d < 0)) :
    (loop st p now speed0 angle0).2
        = [Write.esc 1560, Write.steer (max 1400 (min (1500 - 40 * d) 1600))] ∧
      toInt16 (d * 40) = d * 40 ∧ toInt16 (1500 - toInt16 (d * 40)) = 1500 - 40 * d := by
  have h16 : toInt16 d = d := toInt16_of_range d (by omega) (by omega)
  have hp : toInt16 (d * 40) = d * 40 := toInt16_of_range _ (by omega) (by omega)
  have hs : toInt16 (1500 - toInt16 (d * 40)) = 1500 - 40 * d := by
    rw [hp, toInt16_of_range _ (by omega) (by omega)]; ring
  refine ⟨?_, hp, hs⟩
  rw [loop_auto_message st p now speed0 angle0 hmode hcomplete, hmsg, messageBranch_devMsg, h16]
  rcases hd with hd | hd
  · have h1 : d > 0 ∧ d < 40 := ⟨hd.1, hd.2⟩
    simp only [deviationBranch, if_pos h1, hs, constrain_eq_clamp _ 1400 1600 (by decide)]
  · have h1 : ¬ (d > 0 ∧ d < 40) := by omega
    have h2 : d < 0 ∧ d > -40 := ⟨hd.2, hd.1⟩
    simp only [deviationBranch, if_neg h1, if_pos h2, hs,
      constrain_eq_clamp _ 1400 1600 (by decide)]

/-- Witness for C1: the line `D:5` followed by a carriage return, pending in autonomous mode. -/
theorem C1_proportional_band_witness :
    (autoPending ['D', ':', '5', '\r']).ch5_value > 1500 ∧
      (autoPending ['D', ':', '5', '\r']).stringComplete = true ∧
      trim (autoPending ['D', ':', '5', '\r']).inputString = devMsg 5 ∧
      ((loop (autoPending ['D', ':', '5', '\r']) Preempt.none 0 0 0).2
          = [Write.esc 1560, Write.steer (max 1400 (min (1500 - 40 * 5) 1600))] ∧
        toInt16 (5 * 40) = 5 * 40 ∧ toInt16 (1500 - toInt16 (5 * 40)) = 1500 - 40 * 5) :=
  ⟨by decide, rfl, by decide,
    C1_proportional_band (autoPending ['D', ':', '5', '\r']) Preempt.none 0 0 0 5 (by decide) rfl (by decide)
      (Or.inl ⟨by decide, by decide⟩)⟩

/-- C2. In an autonomous-mode cycle that evaluates the message `D:<d>`: for `40 <= d < 80`
the calls are speed 1550 and steering 1000, for `-80 < d <= -40` speed 1550 and steering 2000. -/
theorem C2_full_lock_band (st : State) (p : Preempt) (now : Nat) (speed0 angle0 d : Int)
    (hmode : st.ch5_value > 1500) (hcomplete : st.stringComplete = true)
    (hmsg : trim st.inputString = devMsg d) :
    (40 ≤ d → d < 80 →
        (loop st p now speed0 angle0).2 = [Write.esc 1550, Write.steer 1000]) ∧
      (-80 < d → d ≤ -40 →
        (loop st p now speed0 angle0).2 = [Write.esc 1550, Write.steer 2000]) := by
  rw [loop_auto_message st p now speed0 angle0 hmode hcomplete, hmsg, messageBranch_devMsg]
  constructor
  · intro h1 h2
    rw [toInt16_of_range d (by omega) (by omega)]
    have c1 : ¬ (d > 0 ∧ d < 40) := by omega
    have c2 : ¬ (d < 0 ∧ d > -40) := by omega
    have c3 : d ≥ 40 ∧ d < 80 := ⟨h1, h2⟩
    simp only [deviationBranch, if_neg c1, if_neg c2, if_pos c3]
  · intro h1 h2
    rw [toInt16_of_range d (by omega) (by omega)]
    have c1 : ¬ (d > 0 ∧ d < 40) := by omega
    have c2 : ¬ (d < 0 ∧ d > -40) := by omega
    have c3 : ¬ (d ≥ 40 ∧ d < 80) := by omega
    have c4 : d ≤ -40 ∧ d > -80 := ⟨h2, h1⟩
    simp only [deviationBranch, if_neg c1, if_neg c2, if_neg c3, if_pos c4]

/-- Witness for C2: the spec's two inputs, `D:45` and `D:-45`. -/
theorem C2_full_lock_band_witness :
    ((autoPending ['D', ':', '4', '5']).ch5_value > 1500 ∧
      (autoPending ['D', ':', '4', '5']).stringComplete = true ∧
      trim (autoPending ['D', ':', '4', '5']).inputString = devMsg 45 ∧
      (loop (autoPending ['D', ':', '4', '5']) Preempt.none 0 0 0).2 = [Write.esc 1550, Write.steer 1000]) ∧
    ((autoPending ['D', ':', '-', '4', '5']).ch5_value > 1500 ∧
      (autoPending ['D', ':', '-', '4', '5']).stringComplete = true ∧
      trim (autoPending ['D', ':', '-', '4', '5']).inputString = devMsg (-45) ∧
      (loop (autoPending ['D', ':', '-', '4', '5']) Preempt.none 0 0 0).2
        = [Write.esc 1550, Write.steer 2000]) :=
  ⟨⟨by decide, rfl, by decide,
      (C2_full_lock_band (autoPending ['D', ':', '4', '5']) Preempt.none 0 0 0 45 (by decide) rfl
        (by decide)).1 (by decide) (by decide)⟩,
    ⟨by decide, rfl, by decide,
      (C2_full_lock_band (autoPending ['D', ':', '-', '4', '5']) Preempt.none 0 0 0 (-45) (by decide) rfl
        (by decide)).2 (by decide) (by decide)⟩⟩

/-- C3, as the code has it: `deviation` is a 16-bit `int`, so the reverse buckets are reached
as stated for every `d` of the message with `-32768 <= d <= 32767`: steering 1800 for
`d >= 80` and 1200 for `d <= -80`, speed 1440 when `|d| < 100` and 1430 when `|d| >= 100`. -/
theorem C3_reverse_band_int16 (st : State) (p : Preempt) (now : Nat) (speed0 angle0 d : Int)
    (hmode : st.ch5_value > 1500) (hcomplete : st.stringComplete = true)
    (hmsg : trim st.inputString = devMsg d)
    (hlo : -32768 ≤ d) (hhi : d ≤ 32767) :
    (80 ≤ d → d < 100 →
        (loop st p now speed0 angle0).2 = [Write.esc 1440, Write.steer 1800]) ∧
      (100 ≤ d →
        (loop st p now speed0 angle0).2 = [Write.esc 1430, Write.steer 1800]) ∧
      (-100 < d → d ≤ -80 →
        (loop st p now speed0 angle0).2 = [Write.esc 1440, Write.steer 1200]) ∧
      (d ≤ -100 →
        (loop st p now speed0 angle0).2 = [Write.esc 1430, Write.steer 1200]) := by
  rw [loop_auto_message st p now speed0 angle0 hmode hcomplete, hmsg, messageBranch_devMsg,
    toInt16_of_range d hlo hhi]
  have c1 : (80 ≤ d ∨ d ≤ -80) → ¬ (d > 0 ∧ d < 40) := by omega
  have c2 : (80 ≤ d ∨ d ≤ -80) → ¬ (d < 0 ∧ d > -40) := by omega
  have c3 : (80 ≤ d ∨ d ≤ -80) → ¬ (d ≥ 40 ∧ d < 80) := by omega
  have c4 : (80 ≤ d ∨ d ≤ -80) → ¬ (d ≤ -40 ∧ d > -80) := by omega
  refine ⟨?_, ?_, ?_, ?_⟩
  · intro h1 h2
    have hb : 80 ≤ d ∨ d ≤ -80 := Or.inl h1
    have c5 : d ≥ 80 ∧ d < 100 := ⟨h1, h2⟩
    simp only [deviationBranch, if_neg (c1 hb), if_neg (c2 hb), if_neg (c3 hb), if_neg (c4 hb),
      if_pos c5]
  · intro h1
    have hb : 80 ≤ d ∨ d ≤ -80 := by omega
    have c5 : ¬ (d ≥ 80 ∧ d < 100) := by omega
    have c6 : ¬ (d ≤ -80 ∧ d > -100) := by omega
    have c7 : d ≥ 100 := h1
    simp only [deviationBranch, if_neg (c1 hb), if_neg (c2 hb), if_neg (c3 hb), if_neg (c4 hb),
      if_neg c5, if_neg c6, if_pos c7]
  · intro h1 h2
    have hb : 80 ≤ d ∨ d ≤ -80 := Or.inr h2
    have c5 : ¬ (d ≥ 80 ∧ d < 100) := by omega
    have c6 : d ≤ -80 ∧ d > -100 := ⟨h2, h1⟩
    simp only [deviationBranch, if_neg (c1 hb), if_neg (c2 hb), if_neg (c3 hb), if_neg (c4 hb),
      if_neg c5, if_pos c6]
  · intro h1
    have hb : 80 ≤ d ∨ d ≤ -80 := by omega
    have c5 : ¬ (d ≥ 80 ∧ d < 100) := by omega
    have c6 : ¬ (d ≤ -80 ∧ d > -100) := by omega
    have c7 : ¬ (d ≥ 100) := by omega
    have c8 : d ≤ -100 := h1
    simp only [deviationBranch, if_neg (c1 hb), if_neg (c2 hb), if_neg (c3 hb), if_neg (c4 hb),
      if_neg c5, if_neg c6, if_neg c7, if_pos c8]

/-- Witness for C3 as amended: the spec's inputs `D:150` and `D:-150`. -/
theorem C3_reverse_band_int16_witness :
    ((autoPending ['D', ':', '1', '5', '0']).ch5_value > 1500 ∧
      (autoPending ['D', ':', '1', '5', '0']).stringComplete = true ∧
      trim (autoPending ['D', ':', '1', '5', '0']).inputString = devMsg 150 ∧
      (loop (autoPending ['D', ':', '1', '5', '0']) Preempt.none 0 0 0).2
        = [Write.esc 1430, Write.steer 1800]) ∧
    ((autoPending ['D', ':', '-', '1', '5', '0']).ch5_value > 1500 ∧
      (autoPending ['D', ':', '-', '1', '5', '0']).stringComplete = true ∧
      trim (autoPending ['D', ':', '-', '1', '5', '0']).inputString = devMsg (-150) ∧
      (loop (autoPending ['D', ':', '-', '1', '5', '0']) Preempt.none 0 0 0).2
        = [Write.esc 1430, Write.steer 1200]) :=
  ⟨⟨by decide, rfl, by decide,
      (C3_reverse_band_int16 (autoPending ['D', ':', '1', '5', '0']) Preempt.none 0 0 0 150 (by decide) rfl
        (by decide) (by decide) (by decide)).2.1 (by decide)⟩,
    ⟨by decide, rfl, by decide,
      (C3_reverse_band_int16 (autoPending ['D', ':', '-', '1', '5', '0']) Preempt.none 0 0 0 (-150)
        (by decide) rfl (by decide) (by decide) (by decide)).2.2.2 (by decide)⟩⟩

/-- C3 as stated fails at `D:40000`: the deviation is at least 100, yet `deviation`, the
16-bit `int` the text is narrowed to, is `40000 - 65536 = -25536`, and the cycle issues
steering 1200 (not 1800) with speed 1430. -/
theorem C3_large_deviation_counterexample :
    (autoPending ['D', ':', '4', '0', '0', '0', '0']).ch5_value > 1500 ∧
      (autoPending ['D', ':', '4', '0', '0', '0', '0']).stringComplete = true ∧
      trim (autoPending ['D', ':', '4', '0', '0', '0', '0']).inputString = devMsg 40000 ∧
      (100 : Int) ≤ 40000 ∧
      toInt16 (toInt (substring (devMsg 40000) 2)) = -25536 ∧
      (loop (autoPending ['D', ':', '4', '0', '0', '0', '0']) Preempt.none 0 0 0).2
        = [Write.esc 1430, Write.steer 1200] ∧
      (loop (autoPending ['D', ':', '4', '0', '0', '0', '0']) Preempt.none 0 0 0).2
        ≠ [Write.esc 1430, Write.steer 1800] := by
  decide

/-- C4. In an autonomous-mode cycle that evaluates a message whose trimmed text is exactly
`S` or exactly `N`, the calls are speed 1435 and steering 1500. -/
theorem C4_stop_marker (st : State) (p : Preempt) (now : Nat) (speed0 angle0 : Int)
    (hmode : st.ch5_value > 1500) (hcomplete : st.stringComplete = true)
    (hmsg : trim st.inputString = ['S'] ∨ trim st.inputString = ['N']) :
    (loop st p now speed0 angle0).2 = [Write.esc 1435, Write.steer 1500] := by
  rw [loop_auto_message st p now speed0 angle0 hmode hcomplete]
  rcases hmsg with h | h
  · rw [h, (messageBranch_stop _).1]
  · rw [h, (messageBranch_stop _).2]

/-- Witness for C4: the line `N` with surrounding white space. -/
theorem C4_stop_marker_witness :
    (autoPending [' ', 'N', '\r']).ch5_value > 1500 ∧
      (autoPending [' ', 'N', '\r']).stringComplete = true ∧
      (trim (autoPending [' ', 'N', '\r']).inputString = ['S'] ∨
        trim (autoPending [' ', 'N', '\r']).inputString = ['N']) ∧
      (loop (autoPending [' ', 'N', '\r']) Preempt.none 0 0 0).2 = [Write.esc 1435, Write.steer 1500] :=
  ⟨by decide, rfl, Or.inr (by decide),
    C4_stop_marker (autoPending [' ', 'N', '\r']) Preempt.none 0 0 0 (by decide) rfl (Or.inr (by decide))⟩

/-- A manual-mode cycle all of whose loads return the throttle value `t` and the steering
value `s` issues speed `clamp(t, 1440, 1560)` and steering `clamp(s, 1000, 2000)`, for every
`s` and `t` (every 16-bit value included); for `s` in `[1000, 2000]` the steering issued is
`s`. -/
theorem manual_stable_passthrough (st : State) (p : Preempt) (now : Nat) (speed0 angle0 : Int)
    (s t : Nat) (hmode : st.ch5_value ≤ 1500) (hsees : seesValues st p s t) :
    (loop st p now speed0 angle0).2
        = [Write.esc (max 1440 (min (t : Int) 1560)),
           Write.steer (max 1000 (min (s : Int) 2000))] ∧
      (1000 ≤ s → s ≤ 2000 →
        (loop st p now speed0 angle0).2
          = [Write.esc (max 1440 (min (t : Int) 1560)), Write.steer (s : Int)]) := by
  rw [loop_manual st p now speed0 angle0 hmode, manualBranch_stable st p s t hsees]
  simp only [constrain_eq_clamp _ 1440 1560 (by decide),
    constrain_eq_clamp _ 1000 2000 (by decide), true_and]
  intro h1 h2
  have : max 1000 (min (s : Int) 2000) = (s : Int) := by omega
  rw [this]

/-- C5, the code at the failing input.  Manual mode, steering and throttle published at 1500,
a throttle pulse in progress; the falling edge of that pulse, 1700 microseconds long, is
served between the second and the third load that `constrain(ch2_value, 1440, 1560)` makes.
The loads return 1500, 1500 and 1700: both range tests pass on 1500 and the value stored and
issued is 1700, which is the clamp of neither reading (those are 1500 and 1560). -/
theorem C5_manual_speed_not_clamped :
    throttlePulseStarted.ch5_value ≤ 1500 ∧
    throttlePulseStarted.ch1_value = 1500 ∧ throttlePulseStarted.ch2_value = 1500 ∧
    (manualLoads throttlePulseStarted throttleUp).1 = [1500, 1500, 1700] ∧
    (loop throttlePulseStarted throttleUp 0 0 0).2 = [Write.esc 1700, Write.steer 1500] ∧
    max 1440 (min (1500 : Int) 1560) = 1500 ∧ max 1440 (min (1700 : Int) 1560) = 1560 := by
  decide

/-- C6. Mode arbitration: `autoMode` holds exactly when the MODE channel exceeds 1500; above
1500 the cycle runs the autonomous branch and its actuator calls depend neither on the
steering and throttle channels nor on the interrupts served; at or below 1500 it runs the
manual branch and issues the manual command whatever line is buffered and whether or not it
is complete, which is the clamped passthrough when no interrupt preempts the branch. -/
theorem C6_mode_arbitration (st : State) (p : Preempt) (now : Nat) (speed0 angle0 : Int) :
    (autoMode st = true ↔ st.ch5_value > 1500) ∧
    (st.ch5_value > 1500 →
      control st p ⟨speed0, angle0⟩ = autoBranch st ⟨speed0, angle0⟩ ∧
      ∀ (s t : Nat) (p2 : Preempt),
        (loop { st with ch1_value := s, ch2_value := t } p2 now speed0 angle0).2
          = (loop st p now speed0 angle0).2) ∧
    (st.ch5_value ≤ 1500 →
      control st p ⟨speed0, angle0⟩ = manualBranch st p ∧
      ∀ (msg : List Char) (complete : Bool),
        (loop { st with inputString := msg, stringComplete := complete } p now speed0 angle0).2
          = (manualBranch st p).2.2 ∧
        (loop { st with inputString := msg, stringComplete := complete } Preempt.none now
            speed0 angle0).2
          = [Write.esc (constrain (st.ch2_value : Int) 1440 1560),
             Write.steer (constrain (st.ch1_value : Int) 1000 2000)]) := by
  refine ⟨by simp [autoMode], ?_, ?_⟩
  · intro h
    have hm : autoMode st = true := by simp [autoMode]; omega
    refine ⟨by simp [control, hm], ?_⟩
    intro s t p2
    have hm2 : autoMode { st with ch1_value := s, ch2_value := t } = true := hm
    simp only [loop, control, hm, hm2, autoBranch]
    cases st.stringComplete <;> simp
  · intro h
    have hm : autoMode st = false := by simp [autoMode]; omega
    refine ⟨by simp [control, hm], ?_⟩
    intro msg complete
    have hmode2 : ({ st with inputString := msg, stringComplete := complete } : State).ch5_value
        ≤ 1500 := h
    constructor
    · rw [loop_manual _ p now speed0 angle0 hmode2, manualBranch_setBuffer]
    · rw [loop_manual _ Preempt.none now speed0 angle0 hmode2, manualBranch_setBuffer,
        manualBranch_stable st Preempt.none st.ch1_value st.ch2_value (manualBranch_none st).1]

/-- Witness for C6: MODE at exactly 1500 with the complete line `D:45` buffered gives the
manual passthrough; MODE at 1800 with the same line gives the `D:45` command whatever the
steering and throttle channels read and whatever interrupts are served. -/
theorem C6_mode_arbitration_witness :
    ({ autoPending ['D', ':', '4', '5'] with ch5_value := 1500 } : State).ch5_value ≤ 1500 ∧
    (loop { autoPending ['D', ':', '4', '5'] with ch5_value := 1500 } Preempt.none 0 0 0).2
      = [Write.esc 1500, Write.steer 1500] ∧
    (autoPending ['D', ':', '4', '5']).ch5_value > 1500 ∧
    (loop { autoPending ['D', ':', '4', '5'] with ch1_value := 1000, ch2_value := 2000 }
        throttleUp 0 0 0).2
      = (loop (autoPending ['D', ':', '4', '5']) Preempt.none 0 0 0).2 :=
  ⟨by decide,
    (((C6_mode_arbitration { autoPending ['D', ':', '4', '5'] with ch5_value := 1500 }
      Preempt.none 0 0 0).2.2 (by decide)).2 ['D', ':', '4', '5'] true).2,
    by decide,
    ((C6_mode_arbitration (autoPending ['D', ':', '4', '5']) Preempt.none 0 0 0).2.1
      (by decide)).2 1000 2000 throttleUp⟩

/-- Every actuator call of an autonomous-mode cycle, and of a manual-mode cycle all of whose
loads of a channel return one value, has speed within `[1430, 1560]` or steering within
`[1000, 2000]`. -/
theorem stable_bounded_outputs (st : State) (p : Preempt) (now : Nat) (speed0 angle0 : Int)
    (hsees : st.ch5_value ≤ 1500 → ∃ s t, seesValues st p s t) :
    ∀ w ∈ (loop st p now speed0 angle0).2, w.inBounds := by
  intro w hw
  by_cases hmode : st.ch5_value ≤ 1500
  · obtain ⟨s, t, h⟩ := hsees hmode
    rw [loop_manual st p now speed0 angle0 hmode, manualBranch_stable st p s t h] at hw
    have h1 := constrain_bounds (t : Int) 1440 1560 (by decide)
    have h2 := constrain_bounds (s : Int) 1000 2000 (by decide)
    simp at hw
    rcases hw with rfl | rfl <;> simp only [Write.inBounds] <;> omega
  · have hgt : st.ch5_value > 1500 := by omega
    by_cases hcomplete : st.stringComplete = true
    · rw [loop_auto_message st p now speed0 angle0 hgt hcomplete] at hw
      exact messageBranch_inBounds _ _ w hw
    · rw [loop_auto_idle st p now speed0 angle0 hgt (by simpa using hcomplete)] at hw
      simp at hw

/-- C7, the code at the failing input.  Manual mode, steering and throttle published at 1500,
a throttle pulse in progress; the falling edge of that pulse, 1000 microseconds long, is
served between the second and the third load that `constrain(ch2_value, 1440, 1560)` makes.
The loads return 1500, 1500 and 1000, and the cycle calls `esc.writeMicroseconds(1000)`, below
the bound 1430. -/
theorem C7_manual_speed_out_of_bounds :
    throttlePulseStarted.ch5_value ≤ 1500 ∧
    (manualLoads throttlePulseStarted throttleDown).1 = [1500, 1500, 1000] ∧
    (loop throttlePulseStarted throttleDown 0 0 0).2 = [Write.esc 1000, Write.steer 1500] ∧
    Write.esc 1000 ∈ (loop throttlePulseStarted throttleDown 0 0 0).2 ∧
    ¬ (Write.esc 1000).inBounds := by
  decide

/-- C8, as the code has it: a complete line that is neither a `D:` message nor `S`/`N`,
evaluated in an autonomous-mode cycle, causes no actuator call, so the previous command stays
in effect, and the line is consumed (buffer emptied, complete-flag cleared).  Nothing is
claimed about the indicator flags and timestamps: the indicator block runs in that cycle too. -/
theorem C8_malformed_no_command (st : State) (p : Preempt) (now : Nat) (speed0 angle0 : Int)
    (hmode : st.ch5_value > 1500) (hcomplete : st.stringComplete = true)
    (hD : startsWith (trim st.inputString) ['D', ':'] = false)
    (hS : equals (trim st.inputString) ['S'] = false)
    (hN : equals (trim st.inputString) ['N'] = false) :
    (loop st p now speed0 angle0).2 = [] ∧
    (loop st p now speed0 angle0).1.inputString = [] ∧
    (loop st p now speed0 angle0).1.stringComplete = false := by
  have hmb : messageBranch (trim st.inputString) ⟨speed0, angle0⟩ = (⟨speed0, angle0⟩, []) := by
    simp [messageBranch, hD, hS, hN]
  rw [loop_auto_message st p now speed0 angle0 hmode hcomplete, hmb]
  refine ⟨rfl, ?_, ?_⟩ <;>
    (simp only [indicators, ledsReversing, ledsLeft, ledsRight, ledsNeutral]
     split_ifs <;> rfl)

/-- Witness for C8 as amended: the spec's line `X:abc`. -/
theorem C8_malformed_no_command_witness :
    malformedPending.ch5_value > 1500 ∧ malformedPending.stringComplete = true ∧
    startsWith (trim malformedPending.inputString) ['D', ':'] = false ∧
    equals (trim malformedPending.inputString) ['S'] = false ∧
    equals (trim malformedPending.inputString) ['N'] = false ∧
    (loop malformedPending Preempt.none 1000 1560 1400).2 = [] ∧
    (loop malformedPending Preempt.none 1000 1560 1400).1.inputString = [] ∧
    (loop malformedPending Preempt.none 1000 1560 1400).1.stringComplete = false :=
  have h := C8_malformed_no_command malformedPending Preempt.none 1000 1560 1400 (by decide) rfl
    (by decide) (by decide) (by decide)
  ⟨by decide, rfl, by decide, by decide, by decide, h.1, h.2.1, h.2.2⟩

/-- C8 as stated fails: with the left indicator lit and its last toggle at clock reading 0, an
autonomous-mode cycle at clock reading 1000 that evaluates `X:abc` (locals holding speed 1560
and steering 1400, a left turn) makes no actuator call, yet it switches the left indicator
off and moves its last-toggle timestamp to 1000. -/
theorem C8_indicator_change_counterexample :
    malformedPending.ch5_value > 1500 ∧ malformedPending.stringComplete = true ∧
    trim malformedPending.inputString = ['X', ':', 'a', 'b', 'c'] ∧
    (loop malformedPending Preempt.none 1000 1560 1400).2 = [] ∧
    malformedPending.leftLedState = true ∧
    (loop malformedPending Preempt.none 1000 1560 1400).1.leftLedState = false ∧
    malformedPending.leftLastBlinkTime = 0 ∧
    (loop malformedPending Preempt.none 1000 1560 1400).1.leftLastBlinkTime = 1000 := by
  decide

/-- C9, the code at the failing input.  Cycle 1 evaluates `S` and issues speed 1435, steering
1500, which lights both indicators.  Cycle 2 runs in autonomous mode with no message pending
and makes no actuator call; entered with the uninitialised locals holding 1560 and 1500 it
classifies the cycle as neutral and switches both indicators off, whereas the classification
of the last issued command (speed 1435) keeps both on. -/
theorem C9_idle_cycle_reads_locals :
    (loop (autoPending ['S']) Preempt.none 0 0 0).2 = [Write.esc 1435, Write.steer 1500] ∧
    afterStop.ch5_value > 1500 ∧ afterStop.stringComplete = false ∧
    afterStop.leftLedState = true ∧ afterStop.rightLedState = true ∧
    (loop afterStop Preempt.none 10 1560 1500).2 = [] ∧
    (loop afterStop Preempt.none 10 1560 1500).1.leftLedState = false ∧
    (loop afterStop Preempt.none 10 1560 1500).1.rightLedState = false ∧
    (indicators afterStop 10 ⟨1435, 1500⟩).leftLedState = true ∧
    (indicators afterStop 10 ⟨1435, 1500⟩).rightLedState = true := by
  decide

/-- C10. Whenever a cycle, manual or autonomous, issues a speed below 1500, it ends with both
indicator flags on and both last-toggle timestamps as they were, whatever the steering; the
two indicator pins are high as well when each pin agreed with its flag before the cycle. -/
theorem C10_reversing_solid (st : State) (p : Preempt) (now : Nat) (speed0 angle0 v : Int)
    (hw : Write.esc v ∈ (loop st p now speed0 angle0).2) (hv : v < 1500) :
    (loop st p now speed0 angle0).1.leftLedState = true ∧
    (loop st p now speed0 angle0).1.rightLedState = true ∧
    (loop st p now speed0 angle0).1.leftLastBlinkTime = st.leftLastBlinkTime ∧
    (loop st p now speed0 angle0).1.rightLastBlinkTime = st.rightLastBlinkTime ∧
    (st.leftPin = st.leftLedState → (loop st p now speed0 angle0).1.leftPin = true) ∧
    (st.rightPin = st.rightLedState → (loop st p now speed0 angle0).1.rightPin = true) := by
  have hframe := control_indicator_frame st p ⟨speed0, angle0⟩
  have hspeed : (control st p ⟨speed0, angle0⟩).2.1.speed = v := by
    simp only [loop] at hw
    rcases control_writes st p ⟨speed0, angle0⟩ with h | h
    · rw [h] at hw; simp at hw
    · rw [h] at hw; simp at hw; exact hw.symm
  have hrev : (control st p ⟨speed0, angle0⟩).2.1.speed < 1500 := by rw [hspeed]; exact hv
  have hind : (loop st p now speed0 angle0).1 = ledsReversing (control st p ⟨speed0, angle0⟩).1 := by
    simp [loop, indicators, hrev]
  have hspec := ledsReversing_spec (control st p ⟨speed0, angle0⟩).1
  rw [hind]
  obtain ⟨f1, f2, f3, f4, f5, f6⟩ := hframe
  obtain ⟨s1, s2, s3, s4, s5, s6⟩ := hspec
  refine ⟨s1, s2, s3.trans f3, s4.trans f4, ?_, ?_⟩
  · intro hp; exact s5 (by rw [f5, f1]; exact hp)
  · intro hp; exact s6 (by rw [f6, f2]; exact hp)

/-- Witness for C10: a manual-mode cycle with throttle channel 1000 and steering channel 2000
(speed 1440 issued), and an autonomous-mode cycle evaluating `D:-150` (speed 1430 issued). -/
theorem C10_reversing_solid_witness :
    (Write.esc 1440 ∈ (loop (manualAt 1500 2000 1000) Preempt.none 7 0 0).2 ∧ (1440 : Int) < 1500 ∧
      (loop (manualAt 1500 2000 1000) Preempt.none 7 0 0).1.leftLedState = true ∧
      (loop (manualAt 1500 2000 1000) Preempt.none 7 0 0).1.rightLedState = true) ∧
    (Write.esc 1430 ∈ (loop (autoPending ['D', ':', '-', '1', '5', '0']) Preempt.none 7 0 0).2 ∧
      (1430 : Int) < 1500 ∧
      (loop (autoPending ['D', ':', '-', '1', '5', '0']) Preempt.none 7 0 0).1.leftLedState = true ∧
      (loop (autoPending ['D', ':', '-', '1', '5', '0']) Preempt.none 7 0 0).1.rightLedState = true) :=
  have h1 := C10_reversing_solid (manualAt 1500 2000 1000) Preempt.none 7 0 0 1440 (by decide) (by decide)
  have h2 := C10_reversing_solid (autoPending ['D', ':', '-', '1', '5', '0']) Preempt.none 7 0 0 1430
    (by decide) (by decide)
  ⟨⟨by decide, by decide, h1.1, h1.2.1⟩, ⟨by decide, by decide, h2.1, h2.2.1⟩⟩

/-! ## Handlers, `serialEvent()` and the indicator block over an execution -/

/-- What `serialEvent()` does to the buffer and the flag, and what it leaves alone. -/
theorem serialEvent_spec (rx : List Char) (st : State) :
    (serialEvent rx st).inputString = st.inputString ++ rx.filter (fun c => c != '\n') ∧
    (serialEvent rx st).stringComplete = (st.stringComplete || rx.contains '\n') ∧
    (serialEvent rx st).leftLedState = st.leftLedState ∧
    (serialEvent rx st).rightLedState = st.rightLedState ∧
    (serialEvent rx st).leftLastBlinkTime = st.leftLastBlinkTime ∧
    (serialEvent rx st).rightLastBlinkTime = st.rightLastBlinkTime ∧
    (serialEvent rx st).leftPin = st.leftPin ∧
    (serialEvent rx st).rightPin = st.rightPin ∧
    (∀ c, (serialEvent rx st).start c = st.start c) ∧
    (∀ c, (serialEvent rx st).value c = st.value c) := by
  induction rx generalizing st with
  | nil => simp [serialEvent]
  | cons x xs ih =>
    unfold serialEvent
    by_cases hx : x = '\n'
    · subst hx
      have h := ih { st with stringComplete := true }
      simp only [if_true]
      refine ⟨?_, ?_, h.2.2.1, h.2.2.2.1, h.2.2.2.2.1, h.2.2.2.2.2.1, h.2.2.2.2.2.2.1,
        h.2.2.2.2.2.2.2.1, ?_, ?_⟩
      · rw [h.1]; simp
      · rw [h.2.1]; simp
      · intro c; rw [h.2.2.2.2.2.2.2.2.1 c]; cases c <;> rfl
      · intro c; rw [h.2.2.2.2.2.2.2.2.2 c]; cases c <;> rfl
    · have h := ih { st with inputString := st.inputString ++ [x] }
      simp only [if_neg hx]
      refine ⟨?_, ?_, h.2.2.1, h.2.2.2.1, h.2.2.2.2.1, h.2.2.2.2.2.1, h.2.2.2.2.2.2.1,
        h.2.2.2.2.2.2.2.1, ?_, ?_⟩
      · rw [h.1]; simp [hx]
      · rw [h.2.1]
        have hne : ¬ '\n' = x := fun e => hx e.symm
        simp [hne]
      · intro c; rw [h.2.2.2.2.2.2.2.2.1 c]; cases c <;> rfl
      · intro c; rw [h.2.2.2.2.2.2.2.2.2 c]; cases c <;> rfl

/-- Modular difference of two clock readings that did not wrap. -/
theorem subU32_of_le (a b : Nat) (hab : b ≤ a) (ha : a < 4294967296) : subU32 a b = a - b := by
  unfold subU32
  omega

theorem ledsLeft_spec (st : State) (now : Nat) :
    (ledsLeft st now).rightLedState = false ∧
    (st.rightPin = st.rightLedState → (ledsLeft st now).rightPin = false) ∧
    (subU32 now st.leftLastBlinkTime ≥ 200 →
      (ledsLeft st now).leftLedState = (!st.leftLedState) ∧
      (ledsLeft st now).leftLastBlinkTime = now) ∧
    (¬ subU32 now st.leftLastBlinkTime ≥ 200 →
      (ledsLeft st now).leftLedState = st.leftLedState ∧
      (ledsLeft st now).leftLastBlinkTime = st.leftLastBlinkTime) := by
  unfold ledsLeft
  cases hr : st.rightLedState <;> by_cases ht : subU32 now st.leftLastBlinkTime ≥ 200 <;>
    simp [hr, ht]

/-- A pass that issues steering 1400 with a speed of at least 1500 runs the left-turn case of
the indicator block. -/
theorem loop_left_turn (st : State) (p : Preempt) (now : Nat) (speed0 angle0 v : Int)
    (hw : (loop st p now speed0 angle0).2 = [Write.esc v, Write.steer 1400]) (hv : 1500 ≤ v) :
    (loop st p now speed0 angle0).1 = ledsLeft (control st p ⟨speed0, angle0⟩).1 now := by
  simp only [loop] at hw
  rcases control_writes st p ⟨speed0, angle0⟩ with h | h
  · rw [h] at hw; simp at hw
  · rw [h] at hw
    simp at hw
    have hs : ¬ (control st p ⟨speed0, angle0⟩).2.1.speed < 1500 := by rw [hw.1]; omega
    have ha : (control st p ⟨speed0, angle0⟩).2.1.angle < 1450 := by rw [hw.2]; decide
    simp [loop, indicators, hs, ha]

/-- Indicator effect of a pass that issues steering 1400 with a speed of at least 1500. -/
theorem pass_left_turn (st : State) (p : Preempt) (now : Nat) (speed0 angle0 v : Int)
    (hw : (loop st p now speed0 angle0).2 = [Write.esc v, Write.steer 1400]) (hv : 1500 ≤ v) :
    (loop st p now speed0 angle0).1.rightLedState = false ∧
    (st.rightPin = st.rightLedState → (loop st p now speed0 angle0).1.rightPin = false) ∧
    (subU32 now st.leftLastBlinkTime ≥ 200 →
      (loop st p now speed0 angle0).1.leftLedState = (!st.leftLedState) ∧
      (loop st p now speed0 angle0).1.leftLastBlinkTime = now) ∧
    (¬ subU32 now st.leftLastBlinkTime ≥ 200 →
      (loop st p now speed0 angle0).1.leftLedState = st.leftLedState ∧
      (loop st p now speed0 angle0).1.leftLastBlinkTime = st.leftLastBlinkTime) := by
  rw [loop_left_turn st p now speed0 angle0 v hw hv]
  have hf := control_indicator_frame st p ⟨speed0, angle0⟩
  have hs := ledsLeft_spec (control st p ⟨speed0, angle0⟩).1 now
  rw [hf.1, hf.2.1, hf.2.2.1, hf.2.2.2.2.2] at hs
  exact hs

theorem passRecords_edge (st : State) (c : Channel) (level : Bool) (t : Nat) (ss : List Step) :
    passRecords st (Step.edge c level t :: ss) = passRecords (interrupt c level t st) ss := rfl

theorem passRecords_serial (st : State) (rx : List Char) (ss : List Step) :
    passRecords st (Step.serial rx :: ss) = passRecords (serialEvent rx st) ss := rfl

theorem passRecords_pass (st : State) (p : Preempt) (now : Nat) (speed0 angle0 : Int) (ss : List Step) :
    passRecords st (Step.pass p now speed0 angle0 :: ss)
      = ⟨now, st, (loop st p now speed0 angle0).1, (loop st p now speed0 angle0).2⟩
          :: passRecords (loop st p now speed0 angle0).1 ss := rfl

theorem leftToggleTimes_cons (r : PassRecord) (rs : List PassRecord) :
    leftToggleTimes (r :: rs)
      = if r.post.leftLedState = r.pre.leftLedState then leftToggleTimes rs
        else r.now :: leftToggleTimes rs := by
  unfold leftToggleTimes
  by_cases h : r.post.leftLedState = r.pre.leftLedState
  · simp [List.filter_cons, h]
  · simp [List.filter_cons, h]

/-- In an execution whose passes all issue steering 1400 with a speed of at least 1500, every
pass ends with the right indicator flag off, and with the right pin low when pin and flag
agreed at the start. -/
theorem left_run_right_off (steps : List Step) : ∀ st : State,
    (∀ r ∈ passRecords st steps, ∃ v, 1500 ≤ v ∧ r.writes = [Write.esc v, Write.steer 1400]) →
    ∀ r ∈ passRecords st steps,
      r.post.rightLedState = false ∧ (st.rightPin = st.rightLedState → r.post.rightPin = false) := by
  induction steps with
  | nil => intro st _ r hr; simp [passRecords] at hr
  | cons s ss ih =>
    intro st hcmd r hr
    cases s with
    | edge c level t =>
      rw [passRecords_edge] at hcmd hr
      have hf := interrupt_frame c level t st
      have h := ih _ hcmd r hr
      rw [hf.2.2.2.1, hf.2.2.2.2.2.2.2] at h
      exact h
    | serial rx =>
      rw [passRecords_serial] at hcmd hr
      have hf := serialEvent_spec rx st
      have h := ih _ hcmd r hr
      rw [hf.2.2.2.1, hf.2.2.2.2.2.2.2.1] at h
      exact h
    | pass p now speed0 angle0 =>
      rw [passRecords_pass] at hcmd hr
      obtain ⟨v, hv, hw⟩ := hcmd _ (List.mem_cons_self _ _)
      have hp := pass_left_turn st p now speed0 angle0 v hw hv
      rcases List.mem_cons.1 hr with rfl | hr'
      · exact ⟨hp.1, hp.2.1⟩
      · have h := ih _ (fun r' hr'' => hcmd r' (List.mem_cons_of_mem _ hr'')) r hr'
        refine ⟨h.1, fun hsync => h.2 ?_⟩
        rw [hp.1, hp.2.1 hsync]

/-- With the left timestamp at `L` and every later pass at a clock reading from `L` on, each
toggle of the left indicator happens at `L + 200` or later. -/
theorem left_run_toggle_bound (steps : List Step) : ∀ (st : State) (L : Nat),
    st.leftLastBlinkTime = L →
    (∀ r ∈ passRecords st steps, ∃ v, 1500 ≤ v ∧ r.writes = [Write.esc v, Write.steer 1400]) →
    (∀ r ∈ passRecords st steps, L ≤ r.now ∧ r.now < 4294967296) →
    ((passRecords st steps).map (fun r => r.now)).Pairwise (fun a b => a ≤ b) →
    ∀ t ∈ leftToggleTimes (passRecords st steps), L + 200 ≤ t := by
  induction steps with
  | nil => intro st L _ _ _ _ t ht; simp [passRecords, leftToggleTimes] at ht
  | cons s ss ih =>
    intro st L hL hcmd hrange hclk t ht
    cases s with
    | edge c level t0 =>
      rw [passRecords_edge] at hcmd hrange hclk ht
      exact ih _ L (by rw [(interrupt_frame c level t0 st).2.2.2.2.1, hL]) hcmd hrange hclk t ht
    | serial rx =>
      rw [passRecords_serial] at hcmd hrange hclk ht
      exact ih _ L (by rw [(serialEvent_spec rx st).2.2.2.2.1, hL]) hcmd hrange hclk t ht
    | pass p now speed0 angle0 =>
      rw [passRecords_pass] at hcmd hrange hclk ht
      obtain ⟨v, hv, hw⟩ := hcmd _ (List.mem_cons_self _ _)
      have hp := pass_left_turn st p now speed0 angle0 v hw hv
      have hnow := hrange _ (List.mem_cons_self _ _)
      simp only at hnow
      have hcmd' := fun r' hr'' => hcmd r' (List.mem_cons_of_mem _ hr'')
      have hrange' := fun r' hr'' => hrange r' (List.mem_cons_of_mem _ hr'')
      rw [List.map_cons, List.pairwise_cons] at hclk
      rw [leftToggleTimes_cons] at ht
      by_cases htog : subU32 now st.leftLastBlinkTime ≥ 200
      · have hpost := hp.2.2.1 htog
        have hge : L + 200 ≤ now := by
          rw [hL, subU32_of_le now L hnow.1 hnow.2] at htog
          omega
        have hne : ¬ (loop st p now speed0 angle0).1.leftLedState = st.leftLedState := by
          rw [hpost.1]; cases st.leftLedState <;> decide
        rw [if_neg hne] at ht
        rcases List.mem_cons.1 ht with rfl | ht'
        · exact hge
        · have hlater : ∀ r ∈ passRecords (loop st p now speed0 angle0).1 ss,
              now ≤ r.now ∧ r.now < 4294967296 := fun r' hr'' =>
            ⟨hclk.1 _ (List.mem_map_of_mem _ hr''), (hrange' r' hr'').2⟩
          have := ih _ now hpost.2 hcmd' hlater hclk.2 t ht'
          omega
      · have hpost := hp.2.2.2 htog
        rw [if_pos hpost.1] at ht
        exact ih _ L (by rw [hpost.2, hL]) hcmd' hrange' hclk.2 t ht

/-- In an execution whose passes all issue steering 1400 with a speed of at least 1500, at
non-decreasing clock readings, any two toggles of the left indicator are at least 200 apart. -/
theorem left_run_toggle_pairwise (steps : List Step) : ∀ st : State,
    (∀ r ∈ passRecords st steps, ∃ v, 1500 ≤ v ∧ r.writes = [Write.esc v, Write.steer 1400]) →
    (∀ r ∈ passRecords st steps, r.now < 4294967296) →
    ((passRecords st steps).map (fun r => r.now)).Pairwise (fun a b => a ≤ b) →
    (leftToggleTimes (passRecords st steps)).Pairwise (fun a b => a + 200 ≤ b) := by
  induction steps with
  | nil => intro st _ _ _; simp [passRecords, leftToggleTimes]
  | cons s ss ih =>
    intro st hcmd hrange hclk
    cases s with
    | edge c level t0 =>
      rw [passRecords_edge] at hcmd hrange hclk ⊢
      exact ih _ hcmd hrange hclk
    | serial rx =>
      rw [passRecords_serial] at hcmd hrange hclk ⊢
      exact ih _ hcmd hrange hclk
    | pass p now speed0 angle0 =>
      rw [passRecords_pass] at hcmd hrange hclk ⊢
      obtain ⟨v, hv, hw⟩ := hcmd _ (List.mem_cons_self _ _)
      have hp := pass_left_turn st p now speed0 angle0 v hw hv
      have hcmd' := fun r' hr'' => hcmd r' (List.mem_cons_of_mem _ hr'')
      have hrange' := fun r' hr'' => hrange r' (List.mem_cons_of_mem _ hr'')
      rw [List.map_cons, List.pairwise_cons] at hclk
      have hrest := ih _ hcmd' hrange' hclk.2
      rw [leftToggleTimes_cons]
      split
      · exact hrest
      · rename_i hne
        have htog : subU32 now st.leftLastBlinkTime ≥ 200 := by
          by_contra hcon
          exact hne (hp.2.2.2 hcon).1
        have hlater : ∀ r ∈ passRecords (loop st p now speed0 angle0).1 ss,
            now ≤ r.now ∧ r.now < 4294967296 := fun r' hr'' =>
          ⟨hclk.1 _ (List.mem_map_of_mem _ hr''), hrange' r' hr''⟩
        exact List.pairwise_cons.2
          ⟨left_run_toggle_bound ss _ now (hp.2.2.1 htog).2 hcmd' hlater hclk.2, hrest⟩

theorem sameInputs_channels (a b : State) (h : sameInputs a b) :
    (∀ c, a.start c = b.start c) ∧ (∀ c, a.value c = b.value c) := by
  obtain ⟨h1, h2, h3, h4, h5, h6, h7, h8, h9, h10, _, _⟩ := h
  constructor <;> intro c <;> cases c <;> simp only [State.start, State.value] <;> assumption

theorem ledsReversing_sameInputs (st : State) : sameInputs (ledsReversing st) st := by
  unfold ledsReversing sameInputs
  cases hl : st.leftLedState <;> cases hr : st.rightLedState <;> simp [hl, hr]

theorem ledsNeutral_sameInputs (st : State) : sameInputs (ledsNeutral st) st := by
  unfold ledsNeutral sameInputs
  cases hl : st.leftLedState <;> cases hr : st.rightLedState <;> simp [hl, hr]

theorem ledsLeft_sameInputs (st : State) (now : Nat) : sameInputs (ledsLeft st now) st := by
  unfold ledsLeft sameInputs
  cases hr : st.rightLedState <;> by_cases ht : subU32 now st.leftLastBlinkTime ≥ 200 <;>
    simp [hr, ht]

theorem ledsRight_sameInputs (st : State) (now : Nat) : sameInputs (ledsRight st now) st := by
  unfold ledsRight sameInputs
  cases hl : st.leftLedState <;> by_cases ht : subU32 now st.rightLastBlinkTime ≥ 200 <;>
    simp [hl, ht]

theorem indicators_sameInputs (st : State) (now : Nat) (l : Locals) :
    sameInputs (indicators st now l) st := by
  unfold indicators
  simp only
  split_ifs
  · exact ledsReversing_sameInputs st
  · exact ledsLeft_sameInputs st now
  · exact ledsRight_sameInputs st now
  · exact ledsNeutral_sameInputs st

/-- The indicator block writes only the indicator flags, pins and timestamps. -/
theorem indicators_frame (st : State) (now : Nat) (l : Locals) :
    (indicators st now l).inputString = st.inputString ∧
    (indicators st now l).stringComplete = st.stringComplete ∧
    (∀ c, (indicators st now l).start c = st.start c) ∧
    (∀ c, (indicators st now l).value c = st.value c) := by
  have h := indicators_sameInputs st now l
  have hc := sameInputs_channels _ _ h
  exact ⟨h.2.2.2.2.2.2.2.2.2.2.1, h.2.2.2.2.2.2.2.2.2.2.2, hc.1, hc.2⟩

/-- A pass of `loop()` preempted by no interrupt on channel `c` leaves the start timestamp
and the published value of that channel as they were. -/
theorem loop_channel_frame (st : State) (p : Preempt) (now : Nat) (speed0 angle0 : Int)
    (c : Channel) (h : p.edges.any (fun e => e.c == c) = false) :
    (loop st p now speed0 angle0).1.start c = st.start c ∧
    (loop st p now speed0 angle0).1.value c = st.value c := by
  have hi := indicators_frame (control st p ⟨speed0, angle0⟩).1 now
    (control st p ⟨speed0, angle0⟩).2.1
  have hc : (control st p ⟨speed0, angle0⟩).1.start c = st.start c ∧
      (control st p ⟨speed0, angle0⟩).1.value c = st.value c := by
    have hmb := manualBranch_channel_frame st p c h
    unfold control autoBranch
    split_ifs
    · exact hmb
    · cases c <;> exact ⟨rfl, rfl⟩
    · exact ⟨rfl, rfl⟩
  exact ⟨(hi.2.2.1 c).trans hc.1, (hi.2.2.2 c).trans hc.2⟩

/-- Steps other than an edge on channel `c` leave the start timestamp of `c` as it was. -/
theorem exec_start_frame (c : Channel) (steps : List Step) : ∀ st : State,
    (∀ s ∈ steps, s.isEdgeOn c = false) →
    (exec st steps).start c = st.start c := by
  induction steps with
  | nil => intro st _; rfl
  | cons s ss ih =>
    intro st h
    have hs := h s (List.mem_cons_self _ _)
    have hss := fun s2 hs2 => h s2 (List.mem_cons_of_mem _ hs2)
    simp only [exec]
    rw [ih _ hss]
    cases s with
    | edge c2 level t =>
      have hne : c ≠ c2 := by
        intro e; subst e; simp [Step.isEdgeOn] at hs
      exact ((interrupt_channels c2 level t st).1 c hne).1
    | serial rx => exact (serialEvent_spec rx st).2.2.2.2.2.2.2.2.1 c
    | pass p now speed0 angle0 =>
      exact (loop_channel_frame st p now speed0 angle0 c (by simpa [Step.isEdgeOn] using hs)).1

/-- Handlers, and `serialEvent()` with nothing received, leave buffer and complete-flag as
they were. -/
theorem exec_no_serial (steps : List Step) : ∀ st : State,
    (∀ s ∈ steps, (∃ c level t, s = Step.edge c level t) ∨ s = Step.serial []) →
    (exec st steps).inputString = st.inputString ∧
    (exec st steps).stringComplete = st.stringComplete := by
  induction steps with
  | nil => intro st _; exact ⟨rfl, rfl⟩
  | cons s ss ih =>
    intro st h
    have hss := fun s2 hs2 => h s2 (List.mem_cons_of_mem _ hs2)
    simp only [exec]
    rcases h s (List.mem_cons_self _ _) with ⟨c, level, t, rfl⟩ | rfl
    · have hf := interrupt_frame c level t st
      have := ih (interrupt c level t st) hss
      exact ⟨this.1.trans hf.1, this.2.trans hf.2.1⟩
    · exact ih _ hss

theorem loop_auto_consumes (st : State) (p : Preempt) (now : Nat) (speed0 angle0 : Int)
    (hmode : st.ch5_value > 1500) (hcomplete : st.stringComplete = true) :
    (loop st p now speed0 angle0).1.inputString = [] ∧
    (loop st p now speed0 angle0).1.stringComplete = false := by
  rw [loop_auto_message st p now speed0 angle0 hmode hcomplete]
  have hi := indicators_frame { st with inputString := [], stringComplete := false } now
    (messageBranch (trim st.inputString) ⟨speed0, angle0⟩).1
  exact ⟨hi.1, hi.2.1⟩

/-! ## Claims, continued -/

/-- C11. In every execution whose passes of `loop()` run at non-decreasing clock readings and
each issue steering 1400 with a speed of at least 1500, the right indicator flag is off at the
end of every pass (and the right pin low, when pin and flag agreed at the start), and any two
toggles of the left indicator are at clock readings at least 200 ms apart. -/
theorem C11_left_blink_sustained (st : State) (steps : List Step)
    (hcmd : ∀ r ∈ passRecords st steps,
      ∃ v, 1500 ≤ v ∧ r.writes = [Write.esc v, Write.steer 1400])
    (hrange : ∀ r ∈ passRecords st steps, r.now < 4294967296)
    (hclk : ((passRecords st steps).map (fun r => r.now)).Pairwise (fun a b => a ≤ b)) :
    (∀ r ∈ passRecords st steps, r.post.rightLedState = false) ∧
    (st.rightPin = st.rightLedState → ∀ r ∈ passRecords st steps, r.post.rightPin = false) ∧
    (leftToggleTimes (passRecords st steps)).Pairwise (fun a b => a + 200 ≤ b) :=
  ⟨fun r hr => (left_run_right_off steps st hcmd r hr).1,
    fun hsync r hr => (left_run_right_off steps st hcmd r hr).2 hsync,
    left_run_toggle_pairwise steps st hcmd hrange hclk⟩

/-- Witness for C11: the execution `leftTurnSteps` from `D:3` pending in autonomous mode; the
left indicator toggles at clock readings 1000 and 1200. -/
theorem C11_left_blink_sustained_witness :
    (∀ r ∈ passRecords (autoPending ['D', ':', '3']) leftTurnSteps,
      r.writes = [Write.esc 1560, Write.steer 1400]) ∧
    (passRecords (autoPending ['D', ':', '3']) leftTurnSteps).map (fun r => r.now)
      = [1000, 1100, 1200] ∧
    leftToggleTimes (passRecords (autoPending ['D', ':', '3']) leftTurnSteps) = [1000, 1200] ∧
    ((∀ r ∈ passRecords (autoPending ['D', ':', '3']) leftTurnSteps,
        r.post.rightLedState = false) ∧
      ((autoPending ['D', ':', '3']).rightPin = (autoPending ['D', ':', '3']).rightLedState →
        ∀ r ∈ passRecords (autoPending ['D', ':', '3']) leftTurnSteps,
          r.post.rightPin = false) ∧
      (leftToggleTimes (passRecords (autoPending ['D', ':', '3']) leftTurnSteps)).Pairwise
        (fun a b => a + 200 ≤ b)) :=
  have hw : ∀ r ∈ passRecords (autoPending ['D', ':', '3']) leftTurnSteps,
      r.writes = [Write.esc 1560, Write.steer 1400] := by decide
  ⟨hw, by decide, by decide,
    C11_left_blink_sustained (autoPending ['D', ':', '3']) leftTurnSteps
      (fun r hr => ⟨1560, by decide, hw r hr⟩) (by decide) (by decide)⟩

/-- C12. An autonomous-mode cycle that starts with a complete message pending evaluates it
(its actuator calls are those of the message), and ends with the buffer empty and the
complete-flag cleared whatever the message; after handlers only (no serial input), a further
autonomous-mode cycle makes no actuator call and leaves buffer and flag empty and cleared. -/
theorem C12_message_consumed_once (st : State) (p : Preempt) (now : Nat) (speed0 angle0 : Int)
    (hmode : st.ch5_value > 1500) (hcomplete : st.stringComplete = true) :
    (loop st p now speed0 angle0).2 = (messageBranch (trim st.inputString) ⟨speed0, angle0⟩).2 ∧
    (loop st p now speed0 angle0).1.inputString = [] ∧
    (loop st p now speed0 angle0).1.stringComplete = false ∧
    ∀ (between : List Step) (p2 : Preempt) (now2 : Nat) (speed2 angle2 : Int),
      (∀ s ∈ between, (∃ c level t, s = Step.edge c level t) ∨ s = Step.serial []) →
      (exec (loop st p now speed0 angle0).1 between).ch5_value > 1500 →
      (loop (exec (loop st p now speed0 angle0).1 between) p2 now2 speed2 angle2).2 = [] ∧
      (loop (exec (loop st p now speed0 angle0).1 between) p2 now2 speed2 angle2).1.inputString
        = [] ∧
      (loop (exec (loop st p now speed0 angle0).1 between) p2 now2 speed2 angle2).1.stringComplete
        = false := by
  have hcons := loop_auto_consumes st p now speed0 angle0 hmode hcomplete
  refine ⟨?_, hcons.1, hcons.2, ?_⟩
  · rw [loop_auto_message st p now speed0 angle0 hmode hcomplete]
  · intro between p2 now2 speed2 angle2 hbetween hmode2
    have hkeep := exec_no_serial between (loop st p now speed0 angle0).1 hbetween
    have hflag : (exec (loop st p now speed0 angle0).1 between).stringComplete = false := by
      rw [hkeep.2, hcons.2]
    have hbuf : (exec (loop st p now speed0 angle0).1 between).inputString = [] := by
      rw [hkeep.1, hcons.1]
    rw [loop_auto_idle _ p2 now2 speed2 angle2 hmode2 hflag]
    have hi := indicators_frame (exec (loop st p now speed0 angle0).1 between) now2
      ⟨speed2, angle2⟩
    exact ⟨rfl, hi.1.trans hbuf, hi.2.1.trans hflag⟩

/-- Witness for C12: `D:45` is evaluated once; after a handler has run, the next
autonomous-mode cycle makes no actuator call. -/
theorem C12_message_consumed_once_witness :
    (autoPending ['D', ':', '4', '5']).ch5_value > 1500 ∧
    (autoPending ['D', ':', '4', '5']).stringComplete = true ∧
    (loop (autoPending ['D', ':', '4', '5']) Preempt.none 0 0 0).2
      = [Write.esc 1550, Write.steer 1000] ∧
    (loop (autoPending ['D', ':', '4', '5']) Preempt.none 0 0 0).1.inputString = [] ∧
    (loop (autoPending ['D', ':', '4', '5']) Preempt.none 0 0 0).1.stringComplete = false ∧
    (loop (exec (loop (autoPending ['D', ':', '4', '5']) Preempt.none 0 0 0).1
        [Step.edge Channel.ch1 true 40]) Preempt.none 5 1550 1000).2 = [] :=
  have h := C12_message_consumed_once (autoPending ['D', ':', '4', '5']) Preempt.none 0 0 0
    (by decide) rfl
  ⟨by decide, rfl, by decide, h.2.1, h.2.2.1,
    (h.2.2.2 [Step.edge Channel.ch1 true 40] Preempt.none 5 1550 1000
      (fun s hs => Or.inl ⟨Channel.ch1, true, 40, List.mem_singleton.1 hs⟩) (by decide)).1⟩

/-- C13. When the handler of a channel runs on a rising edge at microsecond time `T0` and next
on a falling edge at time `T1` (the readings of `micros()` being the times modulo 2^32, other
handlers, `serialEvent()` and passes of `loop()` running in between), the published value is
`(T1 - T0) mod 2^32` truncated to 16 bits; it is the pulse width `T1 - T0` whenever that is
below 65536, also when the 32-bit counter wraps between the edges. -/
theorem C13_pulse_width (c : Channel) (st : State) (T0 T1 : Nat) (mid : List Step)
    (hle : T0 ≤ T1) (hmid : ∀ s ∈ mid, s.isEdgeOn c = false) :
    (interrupt c false (T1 % 4294967296)
        (exec (interrupt c true (T0 % 4294967296) st) mid)).value c
      = ((T1 - T0) % 4294967296) % 65536 ∧
    (T1 - T0 < 65536 →
      (interrupt c false (T1 % 4294967296)
        (exec (interrupt c true (T0 % 4294967296) st) mid)).value c = T1 - T0) := by
  have hstart : (exec (interrupt c true (T0 % 4294967296) st) mid).start c
      = T0 % 4294967296 % 4294967296 := by
    rw [exec_start_frame c mid _ hmid]
    exact (interrupt_channels c true (T0 % 4294967296) st).2.1
  have hval := (interrupt_channels c false (T1 % 4294967296)
    (exec (interrupt c true (T0 % 4294967296) st) mid)).2.2.2.2
  rw [hval, hstart]
  unfold toU16 subU32
  constructor
  · omega
  · intro hw
    omega

/-- Witness for C13: a 1500 microsecond pulse on the throttle channel whose rising edge is
500 microseconds before the counter wraps and whose falling edge is 1000 after. -/
theorem C13_pulse_width_witness :
    (4294966796 : Nat) ≤ 4294968296 ∧ (∀ s ∈ pulseMid, s.isEdgeOn Channel.ch2 = false) ∧
    4294966796 % 4294967296 = 4294966796 ∧ 4294968296 % 4294967296 = 1000 ∧
    (interrupt Channel.ch2 false (4294968296 % 4294967296)
      (exec (interrupt Channel.ch2 true (4294966796 % 4294967296) State.init) pulseMid)).value
        Channel.ch2 = 1500 :=
  ⟨by decide, by decide, by decide, by decide,
    (C13_pulse_width Channel.ch2 State.init 4294966796 4294968296 pulseMid (by decide)
      (by decide)).2 (by decide)⟩

/-- C15. In an autonomous-mode cycle that evaluates a `D:` message whose payload is read as
deviation 0, no bucket matches: the cycle makes no actuator call, and the message is consumed
(buffer emptied, complete-flag cleared). -/
theorem C15_zero_deviation (st : State) (p : Preempt) (now : Nat) (speed0 angle0 : Int)
    (hmode : st.ch5_value > 1500) (hcomplete : st.stringComplete = true)
    (hD : startsWith (trim st.inputString) ['D', ':'] = true)
    (hzero : toInt16 (toInt (substring (trim st.inputString) 2)) = 0) :
    (loop st p now speed0 angle0).2 = [] ∧
    (loop st p now speed0 angle0).1.inputString = [] ∧
    (loop st p now speed0 angle0).1.stringComplete = false := by
  have hcons := loop_auto_consumes st p now speed0 angle0 hmode hcomplete
  refine ⟨?_, hcons.1, hcons.2⟩
  rw [loop_auto_message st p now speed0 angle0 hmode hcomplete]
  simp [messageBranch, hD, hzero, deviationBranch]

/-- Witness for C15: the lines `D:0` and `D:abc`. -/
theorem C15_zero_deviation_witness :
    (trim (autoPending ['D', ':', '0']).inputString = devMsg 0 ∧
      toInt16 (toInt (substring (trim (autoPending ['D', ':', '0']).inputString) 2)) = 0 ∧
      (loop (autoPending ['D', ':', '0']) Preempt.none 0 1560 1400).2 = [] ∧
      (loop (autoPending ['D', ':', '0']) Preempt.none 0 1560 1400).1.inputString = [] ∧
      (loop (autoPending ['D', ':', '0']) Preempt.none 0 1560 1400).1.stringComplete = false) ∧
    (startsWith (trim (autoPending ['D', ':', 'a', 'b', 'c']).inputString) ['D', ':'] = true ∧
      toInt16 (toInt (substring (trim (autoPending ['D', ':', 'a', 'b', 'c']).inputString) 2))
        = 0 ∧
      (loop (autoPending ['D', ':', 'a', 'b', 'c']) Preempt.none 0 1560 1400).2 = [] ∧
      (loop (autoPending ['D', ':', 'a', 'b', 'c']) Preempt.none 0 1560 1400).1.inputString = [] ∧
      (loop (autoPending ['D', ':', 'a', 'b', 'c']) Preempt.none 0 1560 1400).1.stringComplete = false) :=
  ⟨⟨by decide, by decide,
      C15_zero_deviation (autoPending ['D', ':', '0']) Preempt.none 0 1560 1400 (by decide) rfl
        (by decide) (by decide)⟩,
    ⟨by decide, by decide,
      C15_zero_deviation (autoPending ['D', ':', 'a', 'b', 'c']) Preempt.none 0 1560 1400 (by decide) rfl
        (by decide) (by decide)⟩⟩

/-- C17. Channel independence: the handler of one channel, on either edge, leaves the start
timestamp and the published value of every other channel, the serial buffer and the indicator
variables unchanged; on a rising edge it stores the `micros()` reading as its own start
timestamp and leaves its own published value; on a falling edge it leaves its own start. -/
theorem C17_channel_independence (c : Channel) (level : Bool) (t : Nat) (st : State) :
    (∀ c2, c2 ≠ c →
      (interrupt c level t st).start c2 = st.start c2 ∧
      (interrupt c level t st).value c2 = st.value c2) ∧
    (interrupt c true t st).start c = t % 4294967296 ∧
    (interrupt c true t st).value c = st.value c ∧
    (interrupt c false t st).start c = st.start c ∧
    (interrupt c level t st).inputString = st.inputString ∧
    (interrupt c level t st).stringComplete = st.stringComplete ∧
    (interrupt c level t st).leftLedState = st.leftLedState ∧
    (interrupt c level t st).rightLedState = st.rightLedState ∧
    (interrupt c level t st).leftLastBlinkTime = st.leftLastBlinkTime ∧
    (interrupt c level t st).rightLastBlinkTime = st.rightLastBlinkTime ∧
    (interrupt c level t st).leftPin = st.leftPin ∧
    (interrupt c level t st).rightPin = st.rightPin := by
  have h := interrupt_channels c level t st
  exact ⟨h.1, h.2.1, h.2.2.1, h.2.2.2.1, interrupt_frame c level t st⟩

/-- Witness for C17: a falling edge on the steering channel at 1234 microseconds publishes
1234 there and leaves the throttle channel at its start 0 and value 1500. -/
theorem C17_channel_independence_witness :
    Channel.ch2 ≠ Channel.ch1 ∧
    (interrupt Channel.ch1 false 1234 State.init).value Channel.ch1 = 1234 ∧
    (interrupt Channel.ch1 false 1234 State.init).start Channel.ch2
      = State.init.start Channel.ch2 ∧
    (interrupt Channel.ch1 false 1234 State.init).value Channel.ch2
      = State.init.value Channel.ch2 :=
  have h := (C17_channel_independence Channel.ch1 false 1234 State.init).1 Channel.ch2
    (by decide)
  ⟨by decide, by decide, h.1, h.2⟩

/-! ## Indicator classes -/

theorem classify_cases (l : Locals) :
    (l.speed < 1500 → classify l = .reversing) ∧
    (1500 ≤ l.speed → l.angle < 1450 → classify l = .turnLeft) ∧
    (1500 ≤ l.speed → 1550 < l.angle → classify l = .turnRight) ∧
    (1500 ≤ l.speed → 1450 ≤ l.angle → l.angle ≤ 1550 → classify l = .neutral) := by
  refine ⟨?_, ?_, ?_, ?_⟩
  · intro h; simp [classify, h]
  · intro h1 h2
    have : ¬ l.speed < 1500 := by omega
    simp [classify, this, h2]
  · intro h1 h2
    have : ¬ l.speed < 1500 := by omega
    have h3 : ¬ l.angle < 1450 := by omega
    simp [classify, this, h2, h3]
  · intro h1 h2 h3
    have : ¬ l.speed < 1500 := by omega
    have h4 : ¬ l.angle < 1450 := by omega
    have h5 : ¬ 1550 < l.angle := by omega
    simp [classify, this, h4, h5]

/-- The indicator block runs the case `classify` names. -/
theorem indicators_dispatch (st : State) (now : Nat) (l : Locals) :
    indicators st now l =
      (match classify l with
        | .reversing => ledsReversing st
        | .turnLeft => ledsLeft st now
        | .turnRight => ledsRight st now
        | .neutral => ledsNeutral st) := by
  unfold indicators classify
  simp only
  split_ifs <;> rfl

theorem ledsNeutral_spec (st : State) :
    (ledsNeutral st).leftLedState = false ∧ (ledsNeutral st).rightLedState = false ∧
    (ledsNeutral st).leftLastBlinkTime = st.leftLastBlinkTime ∧
    (ledsNeutral st).rightLastBlinkTime = st.rightLastBlinkTime ∧
    (st.leftPin = st.leftLedState → (ledsNeutral st).leftPin = false) ∧
    (st.rightPin = st.rightLedState → (ledsNeutral st).rightPin = false) := by
  unfold ledsNeutral
  cases hl : st.leftLedState <;> cases hr : st.rightLedState <;> simp [hl, hr]

theorem ledsRight_spec (st : State) (now : Nat) :
    (ledsRight st now).leftLedState = false ∧
    (st.leftPin = st.leftLedState → (ledsRight st now).leftPin = false) ∧
    (subU32 now st.rightLastBlinkTime ≥ 200 →
      (ledsRight st now).rightLedState = (!st.rightLedState) ∧
      (ledsRight st now).rightLastBlinkTime = now) ∧
    (¬ subU32 now st.rightLastBlinkTime ≥ 200 →
      (ledsRight st now).rightLedState = st.rightLedState ∧
      (ledsRight st now).rightLastBlinkTime = st.rightLastBlinkTime) := by
  unfold ledsRight
  cases hl : st.leftLedState <;> by_cases ht : subU32 now st.rightLastBlinkTime ≥ 200 <;>
    simp [hl, ht]

/-- C16. The indicator case is a function of `(speed, steering)`, so exactly one case holds:
REVERSING iff speed < 1500, TURN_LEFT iff speed >= 1500 and steering < 1450, TURN_RIGHT iff
speed >= 1500 and steering > 1550, NEUTRAL iff speed >= 1500 and 1450 <= steering <= 1550; the
cycle runs the block of that case on the values `speed` and `angle` hold after the command
part.  In NEUTRAL the cycle ends with both indicator flags off.  In TURN_RIGHT it ends with
the left flag off, and the right flag changes exactly when the clock reading is at least 200
(modulo 2^32) past `rightLastBlinkTime`, which then becomes the clock reading. -/
theorem C16_indicator_classes (st : State) (p : Preempt) (now : Nat) (speed0 angle0 : Int) :
    (∀ l : Locals,
      (classify l = .reversing ↔ l.speed < 1500) ∧
      (classify l = .turnLeft ↔ 1500 ≤ l.speed ∧ l.angle < 1450) ∧
      (classify l = .turnRight ↔ 1500 ≤ l.speed ∧ 1550 < l.angle) ∧
      (classify l = .neutral ↔ 1500 ≤ l.speed ∧ 1450 ≤ l.angle ∧ l.angle ≤ 1550)) ∧
    (loop st p now speed0 angle0).1 =
      (match classify (control st p ⟨speed0, angle0⟩).2.1 with
        | .reversing => ledsReversing (control st p ⟨speed0, angle0⟩).1
        | .turnLeft => ledsLeft (control st p ⟨speed0, angle0⟩).1 now
        | .turnRight => ledsRight (control st p ⟨speed0, angle0⟩).1 now
        | .neutral => ledsNeutral (control st p ⟨speed0, angle0⟩).1) ∧
    (classify (control st p ⟨speed0, angle0⟩).2.1 = .neutral →
      (loop st p now speed0 angle0).1.leftLedState = false ∧
      (loop st p now speed0 angle0).1.rightLedState = false ∧
      (st.leftPin = st.leftLedState → (loop st p now speed0 angle0).1.leftPin = false) ∧
      (st.rightPin = st.rightLedState → (loop st p now speed0 angle0).1.rightPin = false)) ∧
    (classify (control st p ⟨speed0, angle0⟩).2.1 = .turnRight →
      (loop st p now speed0 angle0).1.leftLedState = false ∧
      ((loop st p now speed0 angle0).1.rightLedState ≠ st.rightLedState ↔
        subU32 now st.rightLastBlinkTime ≥ 200) ∧
      (subU32 now st.rightLastBlinkTime ≥ 200 →
        (loop st p now speed0 angle0).1.rightLastBlinkTime = now) ∧
      (¬ subU32 now st.rightLastBlinkTime ≥ 200 →
        (loop st p now speed0 angle0).1.rightLastBlinkTime = st.rightLastBlinkTime)) := by
  have hdisp := indicators_dispatch (control st p ⟨speed0, angle0⟩).1 now
    (control st p ⟨speed0, angle0⟩).2.1
  have hf := control_indicator_frame st p ⟨speed0, angle0⟩
  refine ⟨?_, hdisp, ?_, ?_⟩
  · intro l
    have hc := classify_cases l
    by_cases h1 : l.speed < 1500
    · rw [hc.1 h1]
      refine ⟨?_, ?_, ?_, ?_⟩ <;> constructor <;> intro h <;>
        first | rfl | (cases h; done) | omega
    · by_cases h2 : l.angle < 1450
      · rw [hc.2.1 (by omega) h2]
        refine ⟨?_, ?_, ?_, ?_⟩ <;> constructor <;> intro h <;>
          first | rfl | (cases h; done) | omega
      · by_cases h3 : 1550 < l.angle
        · rw [hc.2.2.1 (by omega) h3]
          refine ⟨?_, ?_, ?_, ?_⟩ <;> constructor <;> intro h <;>
            first | rfl | (cases h; done) | omega
        · rw [hc.2.2.2 (by omega) (by omega) (by omega)]
          refine ⟨?_, ?_, ?_, ?_⟩ <;> constructor <;> intro h <;>
            first | rfl | (cases h; done) | omega
  · intro hn
    have hpost : (loop st p now speed0 angle0).1 = ledsNeutral (control st p ⟨speed0, angle0⟩).1 := by
      rw [show (loop st p now speed0 angle0).1 = indicators (control st p ⟨speed0, angle0⟩).1 now
        (control st p ⟨speed0, angle0⟩).2.1 from rfl, hdisp, hn]
    have hs := ledsNeutral_spec (control st p ⟨speed0, angle0⟩).1
    rw [hf.1, hf.2.1, hf.2.2.2.2.1, hf.2.2.2.2.2] at hs
    rw [hpost]
    exact ⟨hs.1, hs.2.1, hs.2.2.2.2.1, hs.2.2.2.2.2⟩
  · intro hr
    have hpost : (loop st p now speed0 angle0).1 = ledsRight (control st p ⟨speed0, angle0⟩).1 now := by
      rw [show (loop st p now speed0 angle0).1 = indicators (control st p ⟨speed0, angle0⟩).1 now
        (control st p ⟨speed0, angle0⟩).2.1 from rfl, hdisp, hr]
    have hs := ledsRight_spec (control st p ⟨speed0, angle0⟩).1 now
    rw [hf.2.1, hf.2.2.2.1] at hs
    rw [hpost]
    refine ⟨hs.1, ?_, fun h => (hs.2.2.1 h).2, fun h => (hs.2.2.2 h).2⟩
    constructor
    · intro hne
      by_contra hcon
      exact hne (hs.2.2.2 hcon).1
    · intro h
      rw [(hs.2.2.1 h).1]
      cases st.rightLedState <;> decide

/-- Witness for C16: manual mode at clock reading 300 with throttle 1520; steering 1500 is
NEUTRAL and ends with both flags off, steering 1600 is TURN_RIGHT and, 300 ms past the right
timestamp 0, switches the right flag on. -/
theorem C16_indicator_classes_witness :
    (classify (control (manualAt 1500 1500 1520) Preempt.none ⟨0, 0⟩).2.1 = .neutral ∧
      (loop (manualAt 1500 1500 1520) Preempt.none 300 0 0).1.leftLedState = false ∧
      (loop (manualAt 1500 1500 1520) Preempt.none 300 0 0).1.rightLedState = false) ∧
    (classify (control (manualAt 1500 1600 1520) Preempt.none ⟨0, 0⟩).2.1 = .turnRight ∧
      subU32 300 (manualAt 1500 1600 1520).rightLastBlinkTime ≥ 200 ∧
      (loop (manualAt 1500 1600 1520) Preempt.none 300 0 0).1.leftLedState = false ∧
      (loop (manualAt 1500 1600 1520) Preempt.none 300 0 0).1.rightLedState
        ≠ (manualAt 1500 1600 1520).rightLedState ∧
      (loop (manualAt 1500 1600 1520) Preempt.none 300 0 0).1.rightLastBlinkTime = 300) :=
  have hn := (C16_indicator_classes (manualAt 1500 1500 1520) Preempt.none 300 0 0).2.2.1 (by decide)
  have hr := (C16_indicator_classes (manualAt 1500 1600 1520) Preempt.none 300 0 0).2.2.2 (by decide)
  ⟨⟨by decide, hn.1, hn.2.1⟩,
    ⟨by decide, by decide, hr.1, hr.2.1.2 (by decide), hr.2.2.1 (by decide)⟩⟩

/-! ## Indicator class of the autonomous commands -/

theorem control_auto_message (st : State) (p : Preempt) (l : Locals)
    (hmode : st.ch5_value > 1500) (hcomplete : st.stringComplete = true) :
    control st p l = ({ st with inputString := [], stringComplete := false },
      messageBranch (trim st.inputString) l) := by
  have hm : autoMode st = true := by simp [autoMode]; omega
  simp [control, autoBranch, hm, hcomplete]

/-- Values of `speed` and `angle` after the bucket chain, bucket by bucket. -/
theorem deviationBranch_locals (d : Int) (l : Locals) :
    (-40 < d → d < 40 → d ≠ 0 →
      (deviationBranch d l).1 = ⟨1560, max 1400 (min (1500 - 40 * d) 1600)⟩) ∧
    (40 ≤ d → d < 80 → (deviationBranch d l).1 = ⟨1550, 1000⟩) ∧
    (-80 < d → d ≤ -40 → (deviationBranch d l).1 = ⟨1550, 2000⟩) ∧
    (80 ≤ d → (deviationBranch d l).1.speed < 1500) ∧
    (d ≤ -80 → (deviationBranch d l).1.speed < 1500) := by
  refine ⟨?_, ?_, ?_, ?_, ?_⟩
  · intro h1 h2 h3
    have hp : toInt16 (d * 40) = d * 40 := toInt16_of_range _ (by omega) (by omega)
    have hs : toInt16 (1500 - toInt16 (d * 40)) = 1500 - 40 * d := by
      rw [hp, toInt16_of_range _ (by omega) (by omega)]; ring
    have hc := constrain_eq_clamp (1500 - 40 * d) 1400 1600 (by decide)
    by_cases hpos : d > 0 ∧ d < 40
    · simp only [deviationBranch, if_pos hpos, hs, hc]
    · have hneg : d < 0 ∧ d > -40 := by omega
      simp only [deviationBranch, if_neg hpos, if_pos hneg, hs, hc]
  · intro h1 h2
    unfold deviationBranch
    split_ifs <;> first | rfl | (exfalso; omega)
  · intro h1 h2
    unfold deviationBranch
    split_ifs <;> first | rfl | (exfalso; omega)
  · intro h1
    have c1 : ¬ (d > 0 ∧ d < 40) := by omega
    have c2 : ¬ (d < 0 ∧ d > -40) := by omega
    have c3 : ¬ (d ≥ 40 ∧ d < 80) := by omega
    have c4 : ¬ (d ≤ -40 ∧ d > -80) := by omega
    by_cases c5 : d ≥ 80 ∧ d < 100
    · simp only [deviationBranch, if_neg c1, if_neg c2, if_neg c3, if_neg c4, if_pos c5]
      decide
    · have c6 : ¬ (d ≤ -80 ∧ d > -100) := by omega
      have c7 : d ≥ 100 := by omega
      simp only [deviationBranch, if_neg c1, if_neg c2, if_neg c3, if_neg c4, if_neg c5,
        if_neg c6, if_pos c7]
      decide
  · intro h1
    have c1 : ¬ (d > 0 ∧ d < 40) := by omega
    have c2 : ¬ (d < 0 ∧ d > -40) := by omega
    have c3 : ¬ (d ≥ 40 ∧ d < 80) := by omega
    have c4 : ¬ (d ≤ -40 ∧ d > -80) := by omega
    have c5 : ¬ (d ≥ 80 ∧ d < 100) := by omega
    by_cases c6 : d ≤ -80 ∧ d > -100
    · simp only [deviationBranch, if_neg c1, if_neg c2, if_neg c3, if_neg c4, if_neg c5,
        if_pos c6]
      decide
    · have c7 : ¬ (d ≥ 100) := by omega
      have c8 : d ≤ -100 := by omega
      simp only [deviationBranch, if_neg c1, if_neg c2, if_neg c3, if_neg c4, if_neg c5,
        if_neg c6, if_neg c7, if_pos c8]
      decide

theorem loop_flags_of_class (st : State) (p : Preempt) (now : Nat) (speed0 angle0 : Int) :
    (classify (control st p ⟨speed0, angle0⟩).2.1 = .reversing →
      (loop st p now speed0 angle0).1.leftLedState = true ∧
      (loop st p now speed0 angle0).1.rightLedState = true) ∧
    (classify (control st p ⟨speed0, angle0⟩).2.1 = .neutral →
      (loop st p now speed0 angle0).1.leftLedState = false ∧
      (loop st p now speed0 angle0).1.rightLedState = false) := by
  have hdisp := indicators_dispatch (control st p ⟨speed0, angle0⟩).1 now
    (control st p ⟨speed0, angle0⟩).2.1
  have hloop : (loop st p now speed0 angle0).1 = indicators (control st p ⟨speed0, angle0⟩).1 now
    (control st p ⟨speed0, angle0⟩).2.1 := rfl
  constructor
  · intro h
    rw [hloop, hdisp, h]
    have hs := ledsReversing_spec (control st p ⟨speed0, angle0⟩).1
    exact ⟨hs.1, hs.2.1⟩
  · intro h
    rw [hloop, hdisp, h]
    have hs := ledsNeutral_spec (control st p ⟨speed0, angle0⟩).1
    exact ⟨hs.1, hs.2.1⟩

/-- C18, as the code has it: the indicator case of a cycle that evaluates an autonomous
message.  `S`, `N` and `D:<d>` with `|d| >= 80`, for `d` within the 16-bit `int` range, are
REVERSING and end with both indicator flags on; `D:<d>` with `2 <= d < 80` is TURN_LEFT, with
`-80 < d <= -2` TURN_RIGHT; `D:1` and `D:-1` are NEUTRAL and end with both flags off. -/
theorem C18_autonomous_classes_int16 (st : State) (p : Preempt) (now : Nat) (speed0 angle0 : Int)
    (hmode : st.ch5_value > 1500) (hcomplete : st.stringComplete = true) :
    ((trim st.inputString = ['S'] ∨ trim st.inputString = ['N']) →
      classify (control st p ⟨speed0, angle0⟩).2.1 = .reversing ∧
      (loop st p now speed0 angle0).1.leftLedState = true ∧
      (loop st p now speed0 angle0).1.rightLedState = true) ∧
    (∀ d : Int, trim st.inputString = devMsg d → -32768 ≤ d → d ≤ 32767 →
      (80 ≤ d ∨ d ≤ -80) →
      classify (control st p ⟨speed0, angle0⟩).2.1 = .reversing ∧
      (loop st p now speed0 angle0).1.leftLedState = true ∧
      (loop st p now speed0 angle0).1.rightLedState = true) ∧
    (∀ d : Int, trim st.inputString = devMsg d → 2 ≤ d → d < 80 →
      classify (control st p ⟨speed0, angle0⟩).2.1 = .turnLeft) ∧
    (∀ d : Int, trim st.inputString = devMsg d → -80 < d → d ≤ -2 →
      classify (control st p ⟨speed0, angle0⟩).2.1 = .turnRight) ∧
    (∀ d : Int, trim st.inputString = devMsg d → (d = 1 ∨ d = -1) →
      classify (control st p ⟨speed0, angle0⟩).2.1 = .neutral ∧
      (loop st p now speed0 angle0).1.leftLedState = false ∧
      (loop st p now speed0 angle0).1.rightLedState = false) := by
  have hctl := control_auto_message st p ⟨speed0, angle0⟩ hmode hcomplete
  have hL : (control st p ⟨speed0, angle0⟩).2.1
      = (messageBranch (trim st.inputString) ⟨speed0, angle0⟩).1 := by rw [hctl]
  have hflags := loop_flags_of_class st p now speed0 angle0
  refine ⟨?_, ?_, ?_, ?_, ?_⟩
  · intro hmsg
    have hc : classify (control st p ⟨speed0, angle0⟩).2.1 = .reversing := by
      rw [hL]
      rcases hmsg with h | h
      · rw [h, (messageBranch_stop _).1]; decide
      · rw [h, (messageBranch_stop _).2]; decide
    exact ⟨hc, hflags.1 hc⟩
  · intro d hmsg hlo hhi hd
    have hc : classify (control st p ⟨speed0, angle0⟩).2.1 = .reversing := by
      rw [hL, hmsg, messageBranch_devMsg, toInt16_of_range d hlo hhi]
      have hb := deviationBranch_locals d ⟨speed0, angle0⟩
      rcases hd with h | h
      · exact (classify_cases _).1 (hb.2.2.2.1 h)
      · exact (classify_cases _).1 (hb.2.2.2.2 h)
    exact ⟨hc, hflags.1 hc⟩
  · intro d hmsg h1 h2
    rw [hL, hmsg, messageBranch_devMsg, toInt16_of_range d (by omega) (by omega)]
    have hb := deviationBranch_locals d ⟨speed0, angle0⟩
    by_cases h40 : d < 40
    · rw [hb.1 (by omega) h40 (by omega)]
      exact (classify_cases _).2.1 (by simp) (by simp only; omega)
    · rw [hb.2.1 (by omega) h2]; decide
  · intro d hmsg h1 h2
    rw [hL, hmsg, messageBranch_devMsg, toInt16_of_range d (by omega) (by omega)]
    have hb := deviationBranch_locals d ⟨speed0, angle0⟩
    by_cases h40 : -40 < d
    · rw [hb.1 h40 (by omega) (by omega)]
      exact (classify_cases _).2.2.1 (by simp) (by simp only; omega)
    · rw [hb.2.2.1 h1 (by omega)]; decide
  · intro d hmsg hd
    have hc : classify (control st p ⟨speed0, angle0⟩).2.1 = .neutral := by
      rw [hL, hmsg, messageBranch_devMsg, toInt16_of_range d (by omega) (by omega),
        (deviationBranch_locals d ⟨speed0, angle0⟩).1 (by omega) (by omega) (by omega)]
      rcases hd with rfl | rfl <;> decide
    exact ⟨hc, hflags.2 hc⟩

/-- Witness for C18 as amended: `D:-150` is REVERSING with both flags on, `D:2` is TURN_LEFT,
`D:-1` is NEUTRAL with both flags off. -/
theorem C18_autonomous_classes_int16_witness :
    (trim (autoPending ['D', ':', '-', '1', '5', '0']).inputString = devMsg (-150) ∧
      classify (control (autoPending ['D', ':', '-', '1', '5', '0']) Preempt.none ⟨0, 0⟩).2.1 = .reversing ∧
      (loop (autoPending ['D', ':', '-', '1', '5', '0']) Preempt.none 0 0 0).1.leftLedState = true ∧
      (loop (autoPending ['D', ':', '-', '1', '5', '0']) Preempt.none 0 0 0).1.rightLedState = true) ∧
    (trim (autoPending ['D', ':', '2']).inputString = devMsg 2 ∧
      classify (control (autoPending ['D', ':', '2']) Preempt.none ⟨0, 0⟩).2.1 = .turnLeft) ∧
    (trim (autoPending ['D', ':', '-', '1']).inputString = devMsg (-1) ∧
      classify (control (autoPending ['D', ':', '-', '1']) Preempt.none ⟨0, 0⟩).2.1 = .neutral ∧
      (loop (autoPending ['D', ':', '-', '1']) Preempt.none 0 0 0).1.leftLedState = false ∧
      (loop (autoPending ['D', ':', '-', '1']) Preempt.none 0 0 0).1.rightLedState = false) :=
  ⟨⟨by decide,
      (C18_autonomous_classes_int16 (autoPending ['D', ':', '-', '1', '5', '0']) Preempt.none 0 0 0
        (by decide) rfl).2.1 (-150) (by decide) (by decide) (by decide)
        (Or.inr (by decide))⟩,
    ⟨by decide,
      (C18_autonomous_classes_int16 (autoPending ['D', ':', '2']) Preempt.none 0 0 0
        (by decide) rfl).2.2.1 2 (by decide) (by decide) (by decide)⟩,
    ⟨by decide,
      (C18_autonomous_classes_int16 (autoPending ['D', ':', '-', '1']) Preempt.none 0 0 0
        (by decide) rfl).2.2.2.2 (-1) (by decide) (Or.inr rfl)⟩⟩

/-- C18 as stated fails at `D:65537`: the deviation is at least 80, yet the 16-bit `int` it is
narrowed to is 1; the cycle issues speed 1560 and steering 1460, is classified NEUTRAL, and
ends with both indicator flags off instead of on. -/
theorem C18_large_deviation_counterexample :
    (autoPending ['D', ':', '6', '5', '5', '3', '7']).ch5_value > 1500 ∧
    (autoPending ['D', ':', '6', '5', '5', '3', '7']).stringComplete = true ∧
    trim (autoPending ['D', ':', '6', '5', '5', '3', '7']).inputString = devMsg 65537 ∧
    (80 : Int) ≤ 65537 ∧
    toInt16 (toInt (substring (devMsg 65537) 2)) = 1 ∧
    (loop (autoPending ['D', ':', '6', '5', '5', '3', '7']) Preempt.none 0 0 0).2
      = [Write.esc 1560, Write.steer 1460] ∧
    classify (control (autoPending ['D', ':', '6', '5', '5', '3', '7']) Preempt.none ⟨0, 0⟩).2.1
      = .neutral ∧
    (loop (autoPending ['D', ':', '6', '5', '5', '3', '7']) Preempt.none 0 0 0).1.leftLedState = false ∧
    (loop (autoPending ['D', ':', '6', '5', '5', '3', '7']) Preempt.none 0 0 0).1.rightLedState = false := by
  decide

/-! ## The serial buffer across manual-mode passes -/

theorem loop_manual_buffer (st : State) (p : Preempt) (now : Nat) (speed0 angle0 : Int)
    (h : st.ch5_value ≤ 1500) :
    (loop st p now speed0 angle0).1.inputString = st.inputString ∧
    (loop st p now speed0 angle0).1.stringComplete = st.stringComplete := by
  rw [loop_manual st p now speed0 angle0 h]
  have hi := indicators_frame (manualBranch st p).1 now (manualBranch st p).2.1
  have hf := manualBranch_frame st p
  exact ⟨hi.1.trans hf.1, hi.2.1.trans hf.2.1⟩

/-- Every record of `passRecords` is a pass of `loop()` on the state it names. -/
theorem passRecords_sound (steps : List Step) : ∀ st : State,
    ∀ r ∈ passRecords st steps, ∃ p speed0 angle0,
      r.post = (loop r.pre p r.now speed0 angle0).1 ∧
      r.writes = (loop r.pre p r.now speed0 angle0).2 := by
  induction steps with
  | nil => intro st r hr; simp [passRecords] at hr
  | cons s ss ih =>
    intro st r hr
    cases s with
    | edge c level t => rw [passRecords_edge] at hr; exact ih _ r hr
    | serial rx => rw [passRecords_serial] at hr; exact ih _ r hr
    | pass p now speed0 angle0 =>
      rw [passRecords_pass] at hr
      rcases List.mem_cons.1 hr with rfl | hr'
      · exact ⟨p, speed0, angle0, rfl, rfl⟩
      · exact ih _ r hr'

/-- While every pass runs in manual mode, the buffer only grows by the received characters
and the complete-flag is only ever set. -/
theorem exec_manual_buffer (steps : List Step) : ∀ st : State,
    (∀ r ∈ passRecords st steps, r.pre.ch5_value ≤ 1500) →
    (exec st steps).inputString = st.inputString ++ serialText steps ∧
    (exec st steps).stringComplete = (st.stringComplete || serialNewline steps) := by
  induction steps with
  | nil => intro st _; simp [exec, serialText, serialNewline]
  | cons s ss ih =>
    intro st hman
    cases s with
    | edge c level t =>
      rw [passRecords_edge] at hman
      have hf := interrupt_frame c level t st
      have h := ih _ hman
      simp only [exec, Step.run, serialText, serialNewline]
      rw [h.1, h.2, hf.1, hf.2.1]
      exact ⟨rfl, rfl⟩
    | serial rx =>
      rw [passRecords_serial] at hman
      have hf := serialEvent_spec rx st
      have h := ih _ hman
      simp only [exec, Step.run, serialText, serialNewline]
      rw [h.1, h.2, hf.1, hf.2.1]
      exact ⟨by simp, by simp [Bool.or_assoc]⟩
    | pass p now speed0 angle0 =>
      rw [passRecords_pass] at hman
      have hm : st.ch5_value ≤ 1500 := hman _ (List.mem_cons_self _ _)
      have hf := loop_manual_buffer st p now speed0 angle0 hm
      have h := ih _ (fun r hr => hman r (List.mem_cons_of_mem _ hr))
      simp only [exec, Step.run, serialText, serialNewline]
      rw [h.1, h.2, hf.1, hf.2]
      exact ⟨rfl, rfl⟩

/-- C19. A manual-mode pass leaves the serial buffer and the complete-flag as it found them.
So over an execution whose passes all run in manual mode the buffer is the initial buffer
followed by every received character other than a newline, with nothing in between, and the
flag is set once a newline has arrived; an autonomous-mode pass that follows with the flag set
evaluates that whole buffer and consumes it. -/
theorem C19_manual_keeps_message (st : State) (steps : List Step)
    (hman : ∀ r ∈ passRecords st steps, r.pre.ch5_value ≤ 1500) :
    (∀ r ∈ passRecords st steps,
      r.post.inputString = r.pre.inputString ∧ r.post.stringComplete = r.pre.stringComplete) ∧
    (exec st steps).inputString = st.inputString ++ serialText steps ∧
    (exec st steps).stringComplete = (st.stringComplete || serialNewline steps) ∧
    ∀ (p : Preempt) (now : Nat) (speed0 angle0 : Int),
      (exec st steps).ch5_value > 1500 → (exec st steps).stringComplete = true →
      (loop (exec st steps) p now speed0 angle0).2
        = (messageBranch (trim (st.inputString ++ serialText steps)) ⟨speed0, angle0⟩).2 ∧
      (loop (exec st steps) p now speed0 angle0).1.inputString = [] ∧
      (loop (exec st steps) p now speed0 angle0).1.stringComplete = false := by
  have hbuf := exec_manual_buffer steps st hman
  refine ⟨?_, hbuf.1, hbuf.2, ?_⟩
  · intro r hr
    obtain ⟨p, speed0, angle0, hpost, _⟩ := passRecords_sound steps st r hr
    rw [hpost]
    exact loop_manual_buffer r.pre p r.now speed0 angle0 (hman r hr)
  · intro p now speed0 angle0 hmode hcomplete
    have hcons := loop_auto_consumes (exec st steps) p now speed0 angle0 hmode hcomplete
    refine ⟨?_, hcons.1, hcons.2⟩
    rw [loop_auto_message (exec st steps) p now speed0 angle0 hmode hcomplete, hbuf.1]

/-- Witness for C19: in `manualThenAutoSteps` the line `D:45` completes in manual mode and
stays pending over two passes while `D:-45` is appended; the first autonomous-mode pass
evaluates the text `D:45D:-45`, which `toInt` reads as 45. -/
theorem C19_manual_keeps_message_witness :
    (∀ r ∈ passRecords (manualAt 1000 1500 1500) manualThenAutoSteps,
      r.pre.ch5_value ≤ 1500) ∧
    (exec (manualAt 1000 1500 1500) manualThenAutoSteps).inputString
      = ['D', ':', '4', '5', 'D', ':', '-', '4', '5'] ∧
    (exec (manualAt 1000 1500 1500) manualThenAutoSteps).stringComplete = true ∧
    (exec (manualAt 1000 1500 1500) manualThenAutoSteps).ch5_value = 1800 ∧
    (loop (exec (manualAt 1000 1500 1500) manualThenAutoSteps) Preempt.none 20 0 0).2
      = [Write.esc 1550, Write.steer 1000] ∧
    (loop (exec (manualAt 1000 1500 1500) manualThenAutoSteps) Preempt.none 20 0 0).1.inputString
      = [] :=
  have h := C19_manual_keeps_message (manualAt 1000 1500 1500) manualThenAutoSteps (by decide)
  have h2 := h.2.2.2 Preempt.none 20 0 0 (by decide) (by decide)
  ⟨by decide, h.2.1.trans (by decide), h.2.2.1.trans (by decide), by decide,
    h2.1.trans (by decide), h2.2.1⟩

end RCCar
